import Mathlib

/-!
# Verification of the proxycast streaming protocol layer

Shallow embedding of the Anthropic protocol adapter
(`src-tauri/src/agent/protocols/anthropic.rs`) and of the terminal
correlation bridge (`src-tauri/src/agent/tools/terminal.rs`), together with
proofs of the testable properties stated for them.

Conventions of the embedding:
* Rust `String` is Lean `String`; the SSE byte buffer is modelled as
  `List Char` (the code converts bytes with `from_utf8_lossy` and then works
  on the text).
* `std::collections::HashMap` is modelled as an association list whose
  `insert` replaces the value of an existing key and appends fresh keys;
  where the code iterates over a `HashMap` (whose iteration order is
  unspecified) the model iterates in insertion order.
* `std::time::Instant` is modelled as a `Nat` count of elapsed seconds and
  `chrono` timestamps as opaque strings supplied by the caller.
* Fallible calls return `Except`/`Option`.
-/

namespace Proxycast

/-! ## Canonical agent types

Modelled from the spec: the canonical message/stream types live in
`crate::agent::types` (not part of the sources given); their shape is taken
from §3 of the design document and from how `anthropic.rs` and `terminal.rs`
construct and destructure them (e.g. the literal `AgentMessage` built at
`anthropic.rs:340`).
-/

/-- `ToolCallFunction` — the `function` payload of a tool call
(`tc.function.name`, `tc.function.arguments`). -/
structure ToolCallFunction where
  name : String
  arguments : String
  deriving DecidableEq, Repr

/-- `ToolCall` — `{id, function}` as used by `anthropic.rs`. -/
structure ToolCall where
  id : String
  function : ToolCallFunction
  deriving DecidableEq, Repr

/-- One structured content part of a message (`ContentPart` in
`crate::agent::types`). -/
inductive ContentPart where
  | text (text : String)
  | imageUrl (url : String)
  deriving DecidableEq, Repr

/-- `MessageContent` — plain text or structured parts. -/
inductive MessageContent where
  | text (s : String)
  | parts (ps : List ContentPart)
  deriving DecidableEq, Repr

/-- `AgentMessage` — the canonical message (§3 `CanonicalMessage`); field set
taken from the literal constructed at `anthropic.rs:340-347`. -/
structure AgentMessage where
  role : String
  content : MessageContent
  timestamp : String
  tool_calls : Option (List ToolCall)
  tool_call_id : Option String
  reasoning_content : Option String
  deriving DecidableEq, Repr

/-- Token usage counters (modelled from the spec: "usage from
vendor-reported counters"). -/
structure Usage where
  prompt_tokens : Nat
  completion_tokens : Nat
  total_tokens : Nat
  deriving DecidableEq, Repr

/-- `StreamResult` — terminal aggregate of one model turn (§3). -/
structure StreamResult where
  content : String
  tool_calls : Option (List ToolCall)
  usage : Option Usage
  reasoning_content : Option String
  deriving DecidableEq, Repr

/-- `StreamEvent` — the canonical stream events; only the constructors used
by the Anthropic adapter are modelled. -/
inductive StreamEvent where
  | textDelta (text : String)
  | toolStart (tool_name : String) (tool_id : String) (arguments : Option String)
  | done (usage : Option Usage)
  | error (message : String)
  deriving DecidableEq, Repr

/-- `ImageData` — decoded image attachments `(media_type, data)` as used in
`build_messages`. -/
structure ImageData where
  media_type : String
  data : String
  deriving DecidableEq, Repr

/-- `AgentConfig` — the fields of `crate::agent::types::AgentConfig` read by
the Anthropic adapter. -/
structure AgentConfig where
  system_prompt : Option String
  max_tokens : Option Nat
  temperature : Option Int
  deriving DecidableEq, Repr

/-! ## A JSON value model

`serde_json::Value`, used pervasively by the adapter for vendor payloads. -/

/-- `serde_json::Value`. -/
inductive Json where
  | null
  | bool (b : Bool)
  | num (n : Int)
  | str (s : String)
  | arr (xs : List Json)
  | obj (fields : List (String × Json))

/-- `AnthropicMessage` (`crate::models::anthropic`): `{role, content}` with a
free-form JSON content. -/
structure AnthropicMessage where
  role : String
  content : Json

/-! ## OpenAI tool declarations

Modelled from the spec: `crate::models::openai::Tool` is not among the given
sources; its three variants and the `function` payload fields are exactly
those matched in `convert_tools` (`anthropic.rs:79-96`). -/

/-- The `function` payload of `Tool::Function`. -/
structure FunctionDef where
  name : String
  description : Option String
  parameters : Option Json

/-- `crate::models::openai::Tool`. -/
inductive Tool where
  | function (function : FunctionDef)
  | webSearch
  | webSearch20250305

/-- `AnthropicTool` — the vendor-side tool declaration (`anthropic.rs:36-41`). -/
structure AnthropicTool where
  name : String
  description : String
  input_schema : Json

/-! ## `convert_tools` (`anthropic.rs:79-96`) -/

/-- The default object schema used when `function.parameters` is absent:
`{"type": "object", "properties": {}}`. -/
def defaultInputSchema : Json :=
  Json.obj [("type", Json.str "object"), ("properties", Json.obj [])]

/-- `AnthropicProtocol::convert_tools`: map each `Tool::Function` to an
`AnthropicTool` (empty description / default schema for missing fields) and
silently skip the two `WebSearch` variants. -/
def convert_tools (tools : Option (List Tool)) : Option (List AnthropicTool) :=
  tools.map fun t =>
    t.filterMap fun tool =>
      match tool with
      | Tool.function f =>
          some { name := f.name,
                 description := f.description.getD "",
                 input_schema := f.parameters.getD defaultInputSchema }
      | Tool.webSearch => none
      | Tool.webSearch20250305 => none

/-- Number of `Function`-variant entries in a tool list. -/
def countFunctionTools (ts : List Tool) : Nat :=
  (ts.filter fun t => match t with | Tool.function _ => true | _ => false).length

theorem convert_tools_none : convert_tools none = none := rfl

theorem convert_tools_length (ts : List Tool) :
    ∃ l, convert_tools (some ts) = some l ∧ l.length = countFunctionTools ts := by
  refine ⟨_, rfl, ?_⟩
  induction ts with
  | nil => rfl
  | cons t ts ih =>
      cases t <;> simp [convert_tools, countFunctionTools, List.filterMap, List.filter] at ih ⊢ <;>
        simpa [countFunctionTools] using ih

/-- C9 `convert_tools` transmits only `Function` tools, defaults missing
descriptions to `""` and missing parameters to the empty object schema, and a
non-empty all-`WebSearch` list yields `some []` rather than `none`. -/
theorem convert_tools_spec (ts : List Tool) :
    (∃ l, convert_tools (some ts) = some l ∧ l.length = countFunctionTools ts)
    ∧ ((∀ t ∈ ts, (match t with | Tool.function _ => False | _ => True)) →
        convert_tools (some ts) = some [])
    ∧ (∀ f : FunctionDef,
        convert_tools (some [Tool.function f]) =
          some [{ name := f.name,
                  description := f.description.getD "",
                  input_schema := f.parameters.getD defaultInputSchema }]) := by
  refine ⟨convert_tools_length ts, ?_, fun f => rfl⟩
  intro hall
  induction ts with
  | nil => rfl
  | cons t ts ih =>
      have ht := hall t (by simp)
      have hrest : ∀ t' ∈ ts, (match t' with | Tool.function _ => False | _ => True) :=
        fun t' ht' => hall t' (by simp [ht'])
      cases t with
      | function f => exact absurd ht (by simp)
      | webSearch =>
          have := ih hrest
          simpa [convert_tools, List.filterMap] using this
      | webSearch20250305 =>
          have := ih hrest
          simpa [convert_tools, List.filterMap] using this

/-- Witness for C9 at a concrete input: a non-empty, WebSearch-only tool set
maps to `some []`. -/
theorem convert_tools_spec_witness :
    convert_tools (some [Tool.webSearch, Tool.webSearch20250305]) = some [] :=
  (convert_tools_spec [Tool.webSearch, Tool.webSearch20250305]).2.1
    (by intro t ht; fin_cases ht <;> trivial)

/-! ## Association-list model of `std::collections::HashMap`

`insert` replaces the value of an existing key and appends a fresh key at
the end; `remove` deletes the (unique) entry of a key.  The pending-call map
of `validate_tool_message_pairs` and the pending-command table of
`TerminalTool` both use this model. -/

/-- `HashMap::insert` on an association list. -/
def alInsert {β : Type} (m : List (String × β)) (k : String) (v : β) :
    List (String × β) :=
  if m.any (fun p => p.1 = k) then
    m.map (fun p => if p.1 = k then (k, v) else p)
  else m ++ [(k, v)]

/-- `HashMap::get`. -/
def alLookup {β : Type} (m : List (String × β)) (k : String) : Option β :=
  (m.find? (fun p => p.1 = k)).map (·.2)

/-- `HashMap::contains_key`. -/
def alContains {β : Type} (m : List (String × β)) (k : String) : Bool :=
  m.any (fun p => p.1 = k)

/-- The key list of the map. -/
def alKeys {β : Type} (m : List (String × β)) : List String :=
  m.map (·.1)

/-- `HashMap::remove` (dropping the returned value). -/
def alErase {β : Type} (m : List (String × β)) (k : String) : List (String × β) :=
  m.eraseP (fun p => p.1 = k)

theorem alContains_iff {β : Type} (m : List (String × β)) (k : String) :
    alContains m k = true ↔ k ∈ alKeys m := by
  simp only [alContains, alKeys, List.any_eq_true, List.mem_map, decide_eq_true_eq]

theorem alContains_eq_isSome {β : Type} (m : List (String × β)) (k : String) :
    alContains m k = (alLookup m k).isSome := by
  simp only [alContains, alLookup]
  rcases h : m.find? (fun p => decide (p.1 = k)) with _ | p
  · rw [h]
    simp only [Option.map_none', Option.isSome_none, List.any_eq_false]
    intro p hp
    exact (List.find?_eq_none.mp h) p hp
  · rw [h]
    simp only [Option.map_some', Option.isSome_some, List.any_eq_true]
    have h1 := List.find?_some h
    simp only [decide_eq_true_eq] at h1
    exact ⟨p, List.mem_of_find?_eq_some h, by simpa using h1⟩

theorem alInsert_of_not_contains {β : Type} {m : List (String × β)} {k : String}
    (v : β) (h : alContains m k = false) : alInsert m k v = m ++ [(k, v)] := by
  unfold alInsert
  unfold alContains at h
  rw [if_neg (by simp [h])]

theorem alInsert_of_contains {β : Type} {m : List (String × β)} {k : String}
    (v : β) (h : alContains m k = true) :
    alInsert m k v = m.map (fun p => if p.1 = k then (k, v) else p) := by
  unfold alInsert
  rw [if_pos (by simpa [alContains] using h)]

theorem find?_replaceMap {β : Type} (m : List (String × β)) (k : String) (v : β)
    (k' : String) :
    (m.map (fun p => if p.1 = k then (k, v) else p)).find? (fun p => decide (p.1 = k')) =
      if k' = k then (m.find? (fun p => decide (p.1 = k))).map (fun _ => (k, v))
      else m.find? (fun p => decide (p.1 = k')) := by
  induction m with
  | nil => simp
  | cons q m ih =>
      by_cases hq : q.1 = k
      · simp only [List.map_cons, if_pos hq]
        by_cases hk : k' = k
        · subst hk
          rw [List.find?_cons_of_pos _ (by simp), if_pos rfl,
              List.find?_cons_of_pos _ (by simpa using hq)]
          simp
        · rw [List.find?_cons_of_neg _ (by simpa using fun h => hk h.symm), if_neg hk,
              List.find?_cons_of_neg _ (by simpa using fun h => hk (h.symm.trans hq))]
          simpa [hk] using ih
      · simp only [List.map_cons, if_neg hq]
        by_cases hq' : q.1 = k'
        · have hk : ¬ k' = k := fun h => hq (hq' ▸ h)
          rw [List.find?_cons_of_pos _ (by simpa using hq'), if_neg hk,
              List.find?_cons_of_pos _ (by simpa using hq')]
        · rw [List.find?_cons_of_neg _ (by simpa using hq')]
          by_cases hk : k' = k
          · subst hk
            rw [if_pos rfl, List.find?_cons_of_neg _ (by simpa using hq)]
            simpa using ih
          · rw [if_neg hk, List.find?_cons_of_neg _ (by simpa using hq')]
            simpa [hk] using ih

theorem alLookup_alInsert {β : Type} (m : List (String × β)) (k : String) (v : β)
    (k' : String) :
    alLookup (alInsert m k v) k' = if k' = k then some v else alLookup m k' := by
  rcases h : alContains m k with _ | _
  · rw [alInsert_of_not_contains v h]
    unfold alLookup
    rw [List.find?_append]
    by_cases hk : k' = k
    · subst hk
      have hnone : m.find? (fun p => decide (p.1 = k')) = none := by
        rw [List.find?_eq_none]
        intro p hp
        simp only [alContains, List.any_eq_false] at h
        exact h p hp
      simp [hnone]
    · rw [if_neg hk]
      have hone : List.find? (fun p => decide (p.1 = k')) [(k, v)] = none := by
        rw [List.find?_eq_none]
        intro p hp
        simp only [List.mem_singleton] at hp
        subst hp
        simp only [decide_eq_true_eq]
        exact fun h' => hk h'.symm
      simp [hone]
  · rw [alInsert_of_contains v h]
    unfold alLookup
    rw [find?_replaceMap]
    by_cases hk : k' = k
    · subst hk
      rw [if_pos rfl, if_pos rfl]
      rcases hf : m.find? (fun p => decide (p.1 = k')) with _ | p
      · exfalso
        rw [alContains_eq_isSome] at h
        unfold alLookup at h
        rw [hf] at h
        simp at h
      · rw [hf]
        simp
    · rw [if_neg hk, if_neg hk]

theorem alContains_alInsert {β : Type} (m : List (String × β)) (k : String) (v : β)
    (k' : String) :
    alContains (alInsert m k v) k' = (alContains m k' || k' = k) := by
  rw [alContains_eq_isSome, alLookup_alInsert, alContains_eq_isSome]
  by_cases hk : k' = k <;> simp [hk]

theorem alKeys_alInsert {β : Type} (m : List (String × β)) (k : String) (v : β) :
    alKeys (alInsert m k v) = if alContains m k then alKeys m else alKeys m ++ [k] := by
  rcases h : alContains m k with _ | _
  · rw [alInsert_of_not_contains v h]
    simp [alKeys]
  · rw [alInsert_of_contains v h]
    simp only [alKeys, List.map_map, if_pos]
    congr 1
    funext p
    by_cases hp : p.1 = k <;> simp [hp]

/-! ## `validate_tool_message_pairs` (`anthropic.rs:292-353`)

The pending-call `HashMap<String, bool>` is the association list above.  The
synthetic results are appended in the map's iteration order, which for a Rust
`HashMap` is unspecified; the model uses insertion order.  None of the
properties proved below depend on the relative order of the synthetic
results.  `chrono::Utc::now().to_rfc3339()` is passed in as the `now`
argument. -/

/-- The tool-call ids declared by one message (empty unless the algorithm
reads them, i.e. for assistant messages). -/
def msgToolCallIds (m : AgentMessage) : List String :=
  (m.tool_calls.getD []).map (·.id)

/-- The ids declared by assistant messages of a history, in order. -/
def declaredIds (h : List AgentMessage) : List String :=
  (h.map (fun m => if m.role = "assistant" then msgToolCallIds m else [])).flatten

/-- Register every id declared by an assistant message as pending and
unanswered (`pending_tool_calls.insert(tc.id.clone(), false)`). -/
def declareAll (pending : List (String × Bool)) (ids : List String) :
    List (String × Bool) :=
  ids.foldl (fun acc id => alInsert acc id false) pending

/-- The message loop of `validate_tool_message_pairs`: returns the retained
messages and the final pending map. -/
def vtmpGo (pending : List (String × Bool)) :
    List AgentMessage → List AgentMessage × List (String × Bool)
  | [] => ([], pending)
  | m :: rest =>
    if m.role = "assistant" then
      let r := vtmpGo (declareAll pending (msgToolCallIds m)) rest
      (m :: r.1, r.2)
    else if m.role = "tool" then
      match m.tool_call_id with
      | some id =>
          if alContains pending id then
            let r := vtmpGo (alInsert pending id true) rest
            (m :: r.1, r.2)
          else
            vtmpGo pending rest
      | none => vtmpGo pending rest
    else
      let r := vtmpGo pending rest
      (m :: r.1, r.2)

/-- The synthetic failure result injected for an unanswered call id
(`anthropic.rs:340-347`). -/
def mkDefaultToolResult (now id : String) : AgentMessage :=
  { role := "tool",
    content := MessageContent.text "工具执行超时或失败",
    timestamp := now,
    tool_calls := none,
    tool_call_id := some id,
    reasoning_content := none }

/-- `AnthropicProtocol::validate_tool_message_pairs`. -/
def validate_tool_message_pairs (history : List AgentMessage) (now : String) :
    List AgentMessage :=
  let r := vtmpGo [] history
  r.1 ++ (r.2.filter (fun p => !p.2)).map (fun p => mkDefaultToolResult now p.1)

/-- Number of tool-result messages for a given call id. -/
def countToolResults (msgs : List AgentMessage) (id : String) : Nat :=
  (msgs.filter (fun m => m.role = "tool" && m.tool_call_id = some id)).length

/-- The call ids of the tool-result messages of a history, in order. -/
def resultIds (h : List AgentMessage) : List String :=
  h.filterMap (fun m => if m.role = "tool" then m.tool_call_id else none)

theorem countToolResults_nil (id : String) : countToolResults [] id = 0 := rfl

theorem countToolResults_cons (m : AgentMessage) (msgs : List AgentMessage)
    (id : String) :
    countToolResults (m :: msgs) id =
      (if m.role = "tool" ∧ m.tool_call_id = some id then 1 else 0)
        + countToolResults msgs id := by
  unfold countToolResults
  by_cases h : m.role = "tool" ∧ m.tool_call_id = some id
  · rw [List.filter_cons_of_pos (by simp [h.1, h.2]), if_pos h]
    simp [Nat.add_comm]
  · rw [List.filter_cons_of_neg (by simpa using fun a b => h ⟨a, b⟩), if_neg h]
    simp

theorem countToolResults_append (l₁ l₂ : List AgentMessage) (id : String) :
    countToolResults (l₁ ++ l₂) id = countToolResults l₁ id + countToolResults l₂ id := by
  unfold countToolResults
  rw [List.filter_append, List.length_append]

theorem countToolResults_eq_count (h : List AgentMessage) (id : String) :
    countToolResults h id = (resultIds h).count id := by
  induction h with
  | nil => rfl
  | cons m rest ih =>
      rw [countToolResults_cons]
      unfold resultIds
      by_cases hrole : m.role = "tool"
      · rw [List.filterMap_cons]
        simp only [if_pos hrole]
        rcases hid : m.tool_call_id with _ | i
        · simp only [hid]
          rw [if_neg (by simp [hid])]
          simpa [resultIds] using ih
        · simp only [hid]
          by_cases hi : i = id
          · subst hi
            rw [if_pos ⟨hrole, rfl⟩, List.count_cons]
            simp [resultIds, ih, Nat.add_comm]
          · rw [if_neg (by simp; exact fun _ h' => hi h'), List.count_cons]
            simp [resultIds, ih, hi]
      · rw [List.filterMap_cons]
        simp only [if_neg hrole]
        rw [if_neg (by simp [hrole])]
        simpa [resultIds] using ih

theorem declaredIds_cons (m : AgentMessage) (rest : List AgentMessage) :
    declaredIds (m :: rest) =
      (if m.role = "assistant" then msgToolCallIds m else []) ++ declaredIds rest := by
  simp [declaredIds]

theorem declareAll_cons (p : List (String × Bool)) (i : String) (ids : List String) :
    declareAll p (i :: ids) = declareAll (alInsert p i false) ids := rfl

theorem declareAll_lookup_of_not_mem (ids : List String) (p : List (String × Bool))
    (j : String) (hj : j ∉ ids) : alLookup (declareAll p ids) j = alLookup p j := by
  induction ids generalizing p with
  | nil => rfl
  | cons i ids ih =>
      have hji : j ≠ i := fun h => hj (h ▸ List.mem_cons_self i ids)
      have hj' : j ∉ ids := fun h => hj (List.mem_cons_of_mem i h)
      rw [declareAll_cons, ih _ hj', alLookup_alInsert, if_neg hji]

theorem declareAll_lookup (ids : List String) (p : List (String × Bool)) (j : String)
    (hnd : ids.Nodup) (hfresh : ∀ i ∈ ids, alContains p i = false) (hj : j ∈ ids) :
    alLookup (declareAll p ids) j = some false := by
  induction ids generalizing p with
  | nil => cases hj
  | cons i ids ih =>
      rw [declareAll_cons]
      rcases List.mem_cons.mp hj with hj1 | hj2
      · subst hj1
        have hnotin : j ∉ ids := (List.nodup_cons.mp hnd).1
        rw [declareAll_lookup_of_not_mem ids _ j hnotin, alLookup_alInsert, if_pos rfl]
      · refine ih _ (List.nodup_cons.mp hnd).2 ?_ hj2
        intro i' hi'
        rw [alContains_alInsert]
        have h1 : alContains p i' = false := hfresh i' (List.mem_cons_of_mem i hi')
        have h2 : ¬ i' = i := fun h => (List.nodup_cons.mp hnd).1 (h ▸ hi')
        simp [h1, h2]

theorem declareAll_contains (ids : List String) (p : List (String × Bool)) (j : String) :
    alContains (declareAll p ids) j = true ↔ alContains p j = true ∨ j ∈ ids := by
  induction ids generalizing p with
  | nil => simp [declareAll]
  | cons i ids ih =>
      rw [declareAll_cons, ih]
      rw [alContains_alInsert]
      constructor
      · rintro (h | h)
        · rcases Bool.or_eq_true_iff.mp h with h1 | h1
          · exact Or.inl h1
          · simp only [decide_eq_true_eq] at h1
            exact Or.inr (h1 ▸ List.mem_cons_self i ids)
        · exact Or.inr (List.mem_cons_of_mem i h)
      · rintro (h | h)
        · exact Or.inl (by simp [h])
        · rcases List.mem_cons.mp h with h1 | h1
          · exact Or.inl (by simp [h1])
          · exact Or.inr h1

theorem declareAll_keys (ids : List String) (p : List (String × Bool))
    (hnd : ids.Nodup) (hfresh : ∀ i ∈ ids, alContains p i = false) :
    alKeys (declareAll p ids) = alKeys p ++ ids := by
  induction ids generalizing p with
  | nil => simp [declareAll]
  | cons i ids ih =>
      rw [declareAll_cons]
      have h1 : alContains p i = false := hfresh i (List.mem_cons_self i ids)
      have hkeys : alKeys (alInsert p i false) = alKeys p ++ [i] := by
        rw [alKeys_alInsert, h1]
        simp
      rw [ih _ (List.nodup_cons.mp hnd).2, hkeys]
      · simp
      · intro i' hi'
        rw [alContains_alInsert]
        have h2 : alContains p i' = false := hfresh i' (List.mem_cons_of_mem i hi')
        have h3 : ¬ i' = i := fun h => (List.nodup_cons.mp hnd).1 (h ▸ hi')
        simp [h2, h3]

theorem vtmpGo_sublist (h : List AgentMessage) :
    ∀ p : List (String × Bool), (vtmpGo p h).1.Sublist h := by
  induction h with
  | nil => intro p; simp [vtmpGo]
  | cons m rest ih =>
      intro p
      simp only [vtmpGo]
      by_cases h1 : m.role = "assistant"
      · rw [if_pos h1]
        exact (ih _).cons₂ m
      · rw [if_neg h1]
        by_cases h2 : m.role = "tool"
        · rw [if_pos h2]
          rcases hid : m.tool_call_id with _ | id
          · exact (ih p).cons m
          · by_cases h3 : alContains p id = true
            · simp only [h3, if_true]
              exact (ih _).cons₂ m
            · simp only [Bool.not_eq_true] at h3
              simp only [h3, Bool.false_eq_true, if_false]
              exact (ih p).cons m
        · rw [if_neg h2]
          exact (ih p).cons₂ m

/-- From the combined Nodup hypothesis extract that the ids declared by one
assistant message are themselves Nodup and fresh for the pending map. -/
theorem nodup_parts {p : List (String × Bool)} {ids rest : List String}
    (hnd : (alKeys p ++ (ids ++ rest)).Nodup) :
    ids.Nodup ∧ (∀ i ∈ ids, alContains p i = false)
      ∧ ((alKeys p ++ ids) ++ rest).Nodup := by
  have hassoc : ((alKeys p ++ ids) ++ rest).Nodup := by
    rwa [List.append_assoc]
  have h1 := (List.nodup_append.mp hassoc).1
  have h2 := List.nodup_append.mp h1
  refine ⟨h2.2.1, ?_, hassoc⟩
  intro i hi
  have hnotin : i ∉ alKeys p := fun hin => h2.2.2 hin hi
  rcases hb : alContains p i with _ | _
  · rfl
  · exact absurd ((alContains_iff p i).mp hb) hnotin

theorem vtmpGo_keys (h : List AgentMessage) :
    ∀ p : List (String × Bool), (alKeys p ++ declaredIds h).Nodup →
      alKeys (vtmpGo p h).2 = alKeys p ++ declaredIds h := by
  induction h with
  | nil => intro p _; simp [vtmpGo, declaredIds]
  | cons m rest ih =>
      intro p hnd
      rw [declaredIds_cons] at hnd ⊢
      simp only [vtmpGo]
      by_cases h1 : m.role = "assistant"
      · simp only [if_pos h1] at hnd ⊢
        obtain ⟨hndids, hfresh, hassoc⟩ := nodup_parts hnd
        have hkeys : alKeys (declareAll p (msgToolCallIds m)) =
            alKeys p ++ msgToolCallIds m :=
          declareAll_keys _ _ hndids hfresh
        rw [ih (declareAll p (msgToolCallIds m)) (by rwa [hkeys]), hkeys,
            List.append_assoc]
      · simp only [if_neg h1, List.nil_append] at hnd ⊢
        by_cases h2 : m.role = "tool"
        · rw [if_pos h2]
          rcases hid : m.tool_call_id with _ | id
          · exact ih p hnd
          · by_cases h3 : alContains p id = true
            · simp only [h3, if_true]
              have hkeys : alKeys (alInsert p id true) = alKeys p := by
                rw [alKeys_alInsert, h3]
                simp
              rw [ih (alInsert p id true) (by rwa [hkeys]), hkeys]
            · simp only [Bool.not_eq_true] at h3
              simp only [h3, Bool.false_eq_true, if_false]
              exact ih p hnd
        · rw [if_neg h2]
          exact ih p hnd

theorem alLookup_none_of_not_contains {β : Type} {p : List (String × β)} {id : String}
    (h : alContains p id = false) : alLookup p id = none := by
  rcases hl : alLookup p id with _ | b
  · rfl
  · rw [alContains_eq_isSome, hl] at h
    simp at h

/-- A pending call whose flag is already `true` and whose id is neither
redeclared nor answered again stays `true` and contributes no further
retained result. -/
theorem vtmpGo_true (h : List AgentMessage) :
    ∀ (p : List (String × Bool)) (id : String),
      alLookup p id = some true → id ∉ declaredIds h → countToolResults h id = 0 →
      countToolResults (vtmpGo p h).1 id = 0 ∧ alLookup (vtmpGo p h).2 id = some true := by
  induction h with
  | nil =>
      intro p id hl _ _
      exact ⟨rfl, hl⟩
  | cons m rest ih =>
      intro p id hl hnd hcnt
      rw [declaredIds_cons] at hnd
      rw [countToolResults_cons] at hcnt
      simp only [vtmpGo]
      by_cases h1 : m.role = "assistant"
      · simp only [if_pos h1] at hnd ⊢
        have hid1 : id ∉ msgToolCallIds m := fun hx => hnd (List.mem_append.mpr (Or.inl hx))
        have hid2 : id ∉ declaredIds rest := fun hx => hnd (List.mem_append.mpr (Or.inr hx))
        have hnotool : ¬ (m.role = "tool" ∧ m.tool_call_id = some id) := by
          rintro ⟨hr, _⟩
          rw [h1] at hr
          exact absurd hr (by decide)
        have hcnt' : countToolResults rest id = 0 := by
          rwa [if_neg hnotool, Nat.zero_add] at hcnt
        have hl' : alLookup (declareAll p (msgToolCallIds m)) id = some true := by
          rw [declareAll_lookup_of_not_mem _ _ _ hid1]
          exact hl
        obtain ⟨hc, hf⟩ := ih _ id hl' hid2 hcnt'
        refine ⟨?_, hf⟩
        rw [countToolResults_cons, if_neg hnotool, Nat.zero_add]
        exact hc
      · simp only [if_neg h1, List.nil_append] at hnd ⊢
        by_cases h2 : m.role = "tool"
        · simp only [if_pos h2]
          rcases hid : m.tool_call_id with _ | tid
          · have hnotool : ¬ (m.role = "tool" ∧ m.tool_call_id = some id) := by
              rintro ⟨_, hi⟩
              rw [hid] at hi
              cases hi
            have hcnt' : countToolResults rest id = 0 := by
              rwa [if_neg hnotool, Nat.zero_add] at hcnt
            exact ih p id hl hnd hcnt'
          · have hne : tid ≠ id := by
              intro he
              have hhead : m.role = "tool" ∧ m.tool_call_id = some id := ⟨h2, he ▸ hid⟩
              rw [if_pos hhead] at hcnt
              omega
            have hnotool : ¬ (m.role = "tool" ∧ m.tool_call_id = some id) := by
              rintro ⟨_, hi⟩
              rw [hid] at hi
              exact hne (Option.some.inj hi)
            have hcnt' : countToolResults rest id = 0 := by
              rwa [if_neg hnotool, Nat.zero_add] at hcnt
            by_cases h3 : alContains p tid = true
            · simp only [h3, if_true]
              have hl' : alLookup (alInsert p tid true) id = some true := by
                rw [alLookup_alInsert, if_neg (fun he => hne he.symm)]
                exact hl
              obtain ⟨hc, hf⟩ := ih _ id hl' hnd hcnt'
              refine ⟨?_, hf⟩
              rw [countToolResults_cons, if_neg hnotool, Nat.zero_add]
              exact hc
            · simp only [Bool.not_eq_true] at h3
              simp only [h3, Bool.false_eq_true, if_false]
              exact ih p id hl hnd hcnt'
        · simp only [if_neg h2]
          have hnotool : ¬ (m.role = "tool" ∧ m.tool_call_id = some id) :=
            fun hx => h2 hx.1
          have hcnt' : countToolResults rest id = 0 := by
            rwa [if_neg hnotool, Nat.zero_add] at hcnt
          obtain ⟨hc, hf⟩ := ih p id hl hnd hcnt'
          refine ⟨?_, hf⟩
          rw [countToolResults_cons, if_neg hnotool, Nat.zero_add]
          exact hc

/-- Core counting invariant of the repair loop: for an id that is pending
and unanswered, or not yet pending but declared later, the retained results
plus the eventual synthetic result amount to exactly one result. -/
theorem vtmpGo_count (h : List AgentMessage) :
    ∀ (p : List (String × Bool)) (id : String),
      (alKeys p ++ declaredIds h).Nodup →
      countToolResults h id ≤ 1 →
      (alLookup p id = some false ∨ (alLookup p id = none ∧ id ∈ declaredIds h)) →
      countToolResults (vtmpGo p h).1 id
        + (if alLookup (vtmpGo p h).2 id = some false then 1 else 0) = 1 := by
  induction h with
  | nil =>
      intro p id _ _ hdisj
      rcases hdisj with hl | ⟨_, hmem⟩
      · simp [vtmpGo, countToolResults, hl]
      · simp [declaredIds] at hmem
  | cons m rest ih =>
      intro p id hnd hcnt hdisj
      rw [declaredIds_cons] at hnd hdisj
      rw [countToolResults_cons] at hcnt
      simp only [vtmpGo]
      by_cases h1 : m.role = "assistant"
      · simp only [if_pos h1] at hnd hdisj ⊢
        obtain ⟨hndids, hfresh, hassoc⟩ := nodup_parts hnd
        have hnotool : ¬ (m.role = "tool" ∧ m.tool_call_id = some id) := by
          rintro ⟨hr, _⟩
          rw [h1] at hr
          exact absurd hr (by decide)
        have hcnt' : countToolResults rest id ≤ 1 := by
          rwa [if_neg hnotool, Nat.zero_add] at hcnt
        have hkeys' : alKeys (declareAll p (msgToolCallIds m)) =
            alKeys p ++ msgToolCallIds m := declareAll_keys _ _ hndids hfresh
        have hnd' : (alKeys (declareAll p (msgToolCallIds m)) ++ declaredIds rest).Nodup := by
          rw [hkeys']
          exact hassoc
        have hdisj' : alLookup (declareAll p (msgToolCallIds m)) id = some false
            ∨ (alLookup (declareAll p (msgToolCallIds m)) id = none
                ∧ id ∈ declaredIds rest) := by
          by_cases hin : id ∈ msgToolCallIds m
          · exact Or.inl (declareAll_lookup _ _ _ hndids hfresh hin)
          · rw [declareAll_lookup_of_not_mem _ _ _ hin]
            rcases hdisj with hl | ⟨hl, hmem⟩
            · exact Or.inl hl
            · rcases List.mem_append.mp hmem with hm1 | hm2
              · exact absurd hm1 hin
              · exact Or.inr ⟨hl, hm2⟩
        rw [countToolResults_cons, if_neg hnotool, Nat.zero_add]
        exact ih _ id hnd' hcnt' hdisj'
      · simp only [if_neg h1, List.nil_append] at hnd hdisj ⊢
        by_cases h2 : m.role = "tool"
        · simp only [if_pos h2]
          rcases hid : m.tool_call_id with _ | tid
          · have hnotool : ¬ (m.role = "tool" ∧ m.tool_call_id = some id) := by
              rintro ⟨_, hi⟩
              rw [hid] at hi
              cases hi
            have hcnt' : countToolResults rest id ≤ 1 := by
              rw [if_neg hnotool, Nat.zero_add] at hcnt
              exact hcnt
            exact ih p id hnd hcnt' hdisj
          · by_cases h3 : alContains p tid = true
            · simp only [h3, if_true]
              by_cases heq : tid = id
              · subst heq
                have hlf : alLookup p tid = some false := by
                  rcases hdisj with hl | ⟨hl, _⟩
                  · exact hl
                  · rw [alContains_eq_isSome, hl] at h3
                    simp at h3
                have hhead : m.role = "tool" ∧ m.tool_call_id = some tid := ⟨h2, hid⟩
                have hcnt' : countToolResults rest tid = 0 := by
                  rw [if_pos hhead] at hcnt
                  omega
                have hlT : alLookup (alInsert p tid true) tid = some true := by
                  rw [alLookup_alInsert, if_pos rfl]
                have hndecl : tid ∉ declaredIds rest := by
                  have hinp : tid ∈ alKeys p := (alContains_iff p tid).mp h3
                  exact fun hx => (List.nodup_append.mp hnd).2.2 hinp hx
                obtain ⟨hc0, hfT⟩ := vtmpGo_true rest (alInsert p tid true) tid hlT hndecl hcnt'
                rw [countToolResults_cons, if_pos hhead, hc0, hfT]
                simp
              · have hnotool : ¬ (m.role = "tool" ∧ m.tool_call_id = some id) := by
                  rintro ⟨_, hi⟩
                  rw [hid] at hi
                  exact heq (Option.some.inj hi)
                have hcnt' : countToolResults rest id ≤ 1 := by
                  rw [if_neg hnotool, Nat.zero_add] at hcnt
                  exact hcnt
                have hkeys' : alKeys (alInsert p tid true) = alKeys p := by
                  rw [alKeys_alInsert, h3]
                  simp
                have hnd' : (alKeys (alInsert p tid true) ++ declaredIds rest).Nodup := by
                  rw [hkeys']
                  exact hnd
                have hdisj' : alLookup (alInsert p tid true) id = some false
                    ∨ (alLookup (alInsert p tid true) id = none ∧ id ∈ declaredIds rest) := by
                  rw [alLookup_alInsert, if_neg (fun he => heq he.symm)]
                  exact hdisj
                rw [countToolResults_cons, if_neg hnotool, Nat.zero_add]
                exact ih _ id hnd' hcnt' hdisj'
            · simp only [Bool.not_eq_true] at h3
              simp only [h3, Bool.false_eq_true, if_false]
              by_cases heq : tid = id
              · subst heq
                have hhead : m.role = "tool" ∧ m.tool_call_id = some tid := ⟨h2, hid⟩
                have hcnt' : countToolResults rest tid ≤ 1 := by
                  rw [if_pos hhead] at hcnt
                  omega
                have hlnone : alLookup p tid = none := alLookup_none_of_not_contains h3
                have hmem : tid ∈ declaredIds rest := by
                  rcases hdisj with hl | ⟨_, hmem⟩
                  · rw [hlnone] at hl
                    cases hl
                  · exact hmem
                exact ih p tid hnd hcnt' (Or.inr ⟨hlnone, hmem⟩)
              · have hnotool : ¬ (m.role = "tool" ∧ m.tool_call_id = some id) := by
                  rintro ⟨_, hi⟩
                  rw [hid] at hi
                  exact heq (Option.some.inj hi)
                have hcnt' : countToolResults rest id ≤ 1 := by
                  rw [if_neg hnotool, Nat.zero_add] at hcnt
                  exact hcnt
                exact ih p id hnd hcnt' hdisj
        · simp only [if_neg h2]
          have hnotool : ¬ (m.role = "tool" ∧ m.tool_call_id = some id) :=
            fun hx => h2 hx.1
          have hcnt' : countToolResults rest id ≤ 1 := by
            rw [if_neg hnotool, Nat.zero_add] at hcnt
            exact hcnt
          rw [countToolResults_cons, if_neg hnotool, Nat.zero_add]
          exact ih p id hnd hcnt' hdisj

/-- No synthetic result is produced for an id that is not pending. -/
theorem synthCount_zero (pf : List (String × Bool)) (now id : String)
    (hnot : id ∉ alKeys pf) :
    countToolResults
      ((pf.filter (fun p => !p.2)).map (fun p => mkDefaultToolResult now p.1)) id = 0 := by
  induction pf with
  | nil => rfl
  | cons q rest ih =>
      have hq : q.1 ≠ id := fun hx => hnot (by simp [alKeys, hx])
      have hrest : id ∉ alKeys rest := fun hx => hnot (by simp [alKeys] at hx ⊢; exact Or.inr hx)
      rcases hb : q.2 with _ | _
      · rw [List.filter_cons_of_pos (by simp [hb]), List.map_cons, countToolResults_cons,
            if_neg (by rintro ⟨_, hi⟩; exact hq (Option.some.inj hi)), Nat.zero_add]
        exact ih hrest
      · rw [List.filter_cons_of_neg (by simp [hb])]
        exact ih hrest

/-- The synthetic results contribute exactly one result for each id whose
final pending flag is `false`, and none otherwise. -/
theorem synthCount (pf : List (String × Bool)) (now id : String)
    (hnd : (alKeys pf).Nodup) :
    countToolResults
      ((pf.filter (fun p => !p.2)).map (fun p => mkDefaultToolResult now p.1)) id
      = if alLookup pf id = some false then 1 else 0 := by
  induction pf with
  | nil => simp [countToolResults, alLookup]
  | cons q rest ih =>
      have hkeys : alKeys (q :: rest) = q.1 :: alKeys rest := rfl
      rw [hkeys] at hnd
      have hq1 : q.1 ∉ alKeys rest := (List.nodup_cons.mp hnd).1
      have hndr : (alKeys rest).Nodup := (List.nodup_cons.mp hnd).2
      by_cases hq : q.1 = id
      · have hlk : alLookup (q :: rest) id = some q.2 := by
          unfold alLookup
          rw [List.find?_cons_of_pos _ (by simpa using hq)]
          rfl
        rcases hb : q.2 with _ | _
        · rw [List.filter_cons_of_pos (by simp [hb]), List.map_cons, countToolResults_cons,
              if_pos ⟨rfl, by simp [mkDefaultToolResult, hq]⟩, synthCount_zero rest now id (hq ▸ hq1), hlk, hb]
          simp
        · rw [List.filter_cons_of_neg (by simp [hb]), hlk, hb,
              synthCount_zero rest now id (hq ▸ hq1)]
          simp
      · have hlk : alLookup (q :: rest) id = alLookup rest id := by
          unfold alLookup
          rw [List.find?_cons_of_neg _ (by simpa using hq)]
        rw [hlk]
        rcases hb : q.2 with _ | _
        · rw [List.filter_cons_of_pos (by simp [hb]), List.map_cons, countToolResults_cons,
              if_neg (by rintro ⟨_, hi⟩; exact hq (Option.some.inj hi)), Nat.zero_add]
          exact ih hndr
        · rw [List.filter_cons_of_neg (by simp [hb])]
          exact ih hndr

/-- Shape of the synthetic results: tool role, the fixed failure text, and a
pending id. -/
theorem synth_mem (pf : List (String × Bool)) (now : String) :
    ∀ m ∈ (pf.filter (fun p => !p.2)).map (fun p => mkDefaultToolResult now p.1),
      m.role = "tool" ∧ m.content = MessageContent.text "工具执行超时或失败"
        ∧ ∃ id, m.tool_call_id = some id ∧ id ∈ alKeys pf := by
  intro m hm
  obtain ⟨q, hq, rfl⟩ := List.mem_map.mp hm
  have hq' : q ∈ pf := (List.mem_filter.mp hq).1
  exact ⟨rfl, rfl, q.1, rfl, List.mem_map.mpr ⟨q, hq', rfl⟩⟩

/-- Every retained tool-result's id was pending initially or is declared by
some assistant message of the history. -/
theorem vtmpGo_tool_ids (h : List AgentMessage) :
    ∀ p : List (String × Bool), ∀ m ∈ (vtmpGo p h).1, m.role = "tool" →
      ∃ id, m.tool_call_id = some id
        ∧ (alContains p id = true ∨ id ∈ declaredIds h) := by
  induction h with
  | nil =>
      intro p m hm
      simp [vtmpGo] at hm
  | cons m0 rest ih =>
      intro p m hm hrole
      simp only [vtmpGo] at hm
      by_cases h1 : m0.role = "assistant"
      · simp only [if_pos h1] at hm
        rcases List.mem_cons.mp hm with rfl | hm'
        · rw [h1] at hrole
          exact absurd hrole (by decide)
        · obtain ⟨id, hid, hc⟩ := ih _ m hm' hrole
          refine ⟨id, hid, ?_⟩
          rw [declaredIds_cons, if_pos h1]
          rcases hc with hc | hc
          · rcases (declareAll_contains _ _ _).mp hc with hc' | hc'
            · exact Or.inl hc'
            · exact Or.inr (List.mem_append.mpr (Or.inl hc'))
          · exact Or.inr (List.mem_append.mpr (Or.inr hc))
      · simp only [if_neg h1] at hm
        have hdecl : declaredIds (m0 :: rest) = declaredIds rest := by
          rw [declaredIds_cons, if_neg h1, List.nil_append]
        rw [hdecl]
        by_cases h2 : m0.role = "tool"
        · simp only [if_pos h2] at hm
          rcases hid0 : m0.tool_call_id with _ | tid
          · rw [hid0] at hm
            obtain ⟨id, hid, hc⟩ := ih p m hm hrole
            exact ⟨id, hid, hc⟩
          · rw [hid0] at hm
            by_cases h3 : alContains p tid = true
            · simp only [h3, if_true] at hm
              rcases List.mem_cons.mp hm with rfl | hm'
              · exact ⟨tid, hid0, Or.inl h3⟩
              · obtain ⟨id, hid, hc⟩ := ih _ m hm' hrole
                refine ⟨id, hid, ?_⟩
                rcases hc with hc | hc
                · rw [alContains_alInsert] at hc
                  rcases Bool.or_eq_true_iff.mp hc with hc' | hc'
                  · exact Or.inl hc'
                  · simp only [decide_eq_true_eq] at hc'
                    exact Or.inl (hc' ▸ h3)
                · exact Or.inr hc
            · simp only [Bool.not_eq_true] at h3
              simp only [h3, Bool.false_eq_true, if_false] at hm
              exact ih p m hm hrole
        · simp only [if_neg h2] at hm
          rcases List.mem_cons.mp hm with rfl | hm'
          · exact absurd hrole h2
          · exact ih p m hm' hrole

/-- C1 (amended): for a history whose assistant messages declare each
tool-call id at most once and which contains at most one tool-result per id,
the repair pass gives every declared id exactly one matching tool-result;
the retained messages form a subsequence of the history (original
declaration order preserved) followed by the synthetic failure results; and
every tool-result in the output (retained or synthetic) refers to a declared
id — orphans are dropped.  Without the at-most-once hypotheses the code
keeps every matching result, so "exactly one" weakens to "at least one"
(see the counterexample). -/
theorem validate_tool_message_pairs_spec (h : List AgentMessage) (now : String)
    (hdecl : (declaredIds h).Nodup) (hres : (resultIds h).Nodup) :
    (∀ id ∈ declaredIds h,
        countToolResults (validate_tool_message_pairs h now) id = 1)
    ∧ (∃ kept synth, validate_tool_message_pairs h now = kept ++ synth
        ∧ kept.Sublist h
        ∧ ∀ m ∈ synth, m.role = "tool"
            ∧ m.content = MessageContent.text "工具执行超时或失败"
            ∧ ∃ id, m.tool_call_id = some id ∧ id ∈ declaredIds h)
    ∧ (∀ m ∈ validate_tool_message_pairs h now, m.role = "tool" →
        ∃ id, m.tool_call_id = some id ∧ id ∈ declaredIds h) := by
  have hnd0 : (alKeys ([] : List (String × Bool)) ++ declaredIds h).Nodup := by
    simpa [alKeys] using hdecl
  have hkeys : alKeys (vtmpGo [] h).2 = declaredIds h := by
    simpa [alKeys] using vtmpGo_keys h [] hnd0
  have hcount : ∀ id, countToolResults h id ≤ 1 := by
    intro id
    rw [countToolResults_eq_count]
    exact List.nodup_iff_count_le_one.mp hres id
  refine ⟨?_, ?_, ?_⟩
  · intro id hid
    unfold validate_tool_message_pairs
    rw [countToolResults_append]
    have hmain := vtmpGo_count h [] id hnd0 (hcount id) (Or.inr ⟨rfl, hid⟩)
    rw [synthCount (vtmpGo [] h).2 now id (by rw [hkeys]; exact hdecl)]
    exact hmain
  · refine ⟨(vtmpGo [] h).1, _, rfl, vtmpGo_sublist h [], ?_⟩
    intro m hm
    obtain ⟨hrole, hcontent, id, hid, hmemkeys⟩ := synth_mem (vtmpGo [] h).2 now m hm
    exact ⟨hrole, hcontent, id, hid, hkeys ▸ hmemkeys⟩
  · intro m hm hrole
    unfold validate_tool_message_pairs at hm
    rcases List.mem_append.mp hm with hm1 | hm2
    · obtain ⟨id, hid, hc⟩ := vtmpGo_tool_ids h [] m hm1 hrole
      rcases hc with hc | hc
      · simp [alContains] at hc
      · exact ⟨id, hid, hc⟩
    · obtain ⟨_, _, id, hid, hmk⟩ := synth_mem _ now m hm2
      exact ⟨id, hid, hkeys ▸ hmk⟩

/-- A history consisting of one assistant message that declares the single
tool call `"t1"` and leaves it unanswered (Scenario B of the spec). -/
def historyOneCall : List AgentMessage :=
  [{ role := "assistant",
     content := MessageContent.text "",
     timestamp := "2024-01-01T00:00:00Z",
     tool_calls := some [{ id := "t1", function := { name := "run", arguments := "null" } }],
     tool_call_id := none,
     reasoning_content := none }]

/-- Witness for the amended C1 at Scenario B: the unanswered call `"t1"`
ends up with exactly one (synthetic) tool-result. -/
theorem validate_tool_message_pairs_spec_witness :
    countToolResults (validate_tool_message_pairs historyOneCall "2024-01-01T00:00:01Z") "t1" = 1 :=
  (validate_tool_message_pairs_spec historyOneCall "2024-01-01T00:00:01Z"
      (by decide) (by decide)).1 "t1" (by decide)

/-- A history with one declared call `"t1"` and two tool-results for it. -/
def historyDupResults : List AgentMessage :=
  [{ role := "assistant",
     content := MessageContent.text "",
     timestamp := "2024-01-01T00:00:00Z",
     tool_calls := some [{ id := "t1", function := { name := "run", arguments := "null" } }],
     tool_call_id := none,
     reasoning_content := none },
   { role := "tool",
     content := MessageContent.text "first result",
     timestamp := "2024-01-01T00:00:01Z",
     tool_calls := none,
     tool_call_id := some "t1",
     reasoning_content := none },
   { role := "tool",
     content := MessageContent.text "second result",
     timestamp := "2024-01-01T00:00:02Z",
     tool_calls := none,
     tool_call_id := some "t1",
     reasoning_content := none }]

/-- C1 counterexample: when the incoming history already holds two
tool-results for the declared id `"t1"`, the repair pass keeps both, so the
declared call ends with two matching results, not exactly one. -/
theorem validate_tool_message_pairs_counterexample :
    "t1" ∈ declaredIds historyDupResults
    ∧ countToolResults
        (validate_tool_message_pairs historyDupResults "2024-01-01T00:00:03Z") "t1" = 2 := by
  decide

/-! ## SSE frame decoding (`process_stream`, `anthropic.rs:356-476`)

The buffer loop `while let Some(pos) = buffer.find("\n\n") { ... }`
repeatedly splits off the text before the first blank line and keeps the
tail.  `extractFrames` computes, in one pass, the same list of complete
frames and the same retained tail. -/

/-- Greedy leftmost splitting of a buffer at `"\n\n"`: the complete frames
and the incomplete tail retained for the next chunk. -/
def extractFrames : List Char → List (List Char) × List Char
  | [] => ([], [])
  | [c] => ([], [c])
  | c1 :: c2 :: rest =>
    if c1 = '\n' ∧ c2 = '\n' then
      ([] :: (extractFrames rest).1, (extractFrames rest).2)
    else
      match extractFrames (c2 :: rest) with
      | ([], l) => ([], c1 :: l)
      | (f :: fs, l) => ((c1 :: f) :: fs, l)

theorem extractFrames_nilList : extractFrames [] = ([], []) := by
  rw [extractFrames]

theorem extractFrames_single (c : Char) : extractFrames [c] = ([], [c]) := by
  rw [extractFrames]

theorem extractFrames_blank (rest : List Char) :
    extractFrames ('\n' :: '\n' :: rest) =
      ([] :: (extractFrames rest).1, (extractFrames rest).2) := by
  rw [extractFrames]
  simp

theorem extractFrames_cons2 {c1 c2 : Char} (rest : List Char)
    (h : ¬(c1 = '\n' ∧ c2 = '\n')) :
    extractFrames (c1 :: c2 :: rest) =
      match extractFrames (c2 :: rest) with
      | ([], l) => ([], c1 :: l)
      | (f :: fs, l) => ((c1 :: f) :: fs, l) := by
  rw [extractFrames]
  simp [h]

/-- If no frame is complete, the whole buffer is retained. -/
theorem extractFrames_nil_eq (s : List Char) :
    (extractFrames s).1 = [] → (extractFrames s).2 = s := by
  induction s using extractFrames.induct with
  | case1 => intro _; rw [extractFrames_nilList]
  | case2 c => intro _; rw [extractFrames_single]
  | case3 c1 c2 rest hnl ih =>
      obtain ⟨h1, h2⟩ := hnl
      subst h1
      subst h2
      rw [extractFrames_blank]
      intro hx
      cases hx
  | case4 c1 c2 rest hnl l hre ih =>
      have hl : l = c2 :: rest := by
        have h2 := ih (by rw [hre])
        rw [hre] at h2
        exact h2
      rw [extractFrames_cons2 rest hnl, hre, hl]
      intro _
      rfl
  | case5 c1 c2 rest hnl f fs l hre ih =>
      rw [extractFrames_cons2 rest hnl, hre]
      intro hx
      cases hx

/-- The retained tail contains no complete frame: re-decoding it yields no
frame and the identical tail. -/
theorem extractFrames_leftover (s : List Char) :
    extractFrames (extractFrames s).2 = ([], (extractFrames s).2) := by
  induction s using extractFrames.induct with
  | case1 => rw [extractFrames_nilList, extractFrames_nilList]
  | case2 c => rw [extractFrames_single, extractFrames_single]
  | case3 c1 c2 rest hnl ih =>
      obtain ⟨h1, h2⟩ := hnl
      subst h1
      subst h2
      rw [extractFrames_blank]
      exact ih
  | case4 c1 c2 rest hnl l hre ih =>
      have hl : l = c2 :: rest := by
        have h2 := extractFrames_nil_eq (c2 :: rest) (by rw [hre])
        rw [hre] at h2
        exact h2
      have ha : extractFrames (c1 :: c2 :: rest) = ([], c1 :: c2 :: rest) := by
        rw [extractFrames_cons2 rest hnl, hre, hl]
      rw [ha]
      exact ha
  | case5 c1 c2 rest hnl f fs l hre ih =>
      rw [extractFrames_cons2 rest hnl, hre]
      rw [hre] at ih
      simpa using ih

/-- Decoding distributes over concatenation: decoding `a ++ b` yields the
frames of `a`, then the frames of `a`'s retained tail glued to `b`. -/
theorem extractFrames_append (a b : List Char) :
    extractFrames (a ++ b) =
      ((extractFrames a).1 ++ (extractFrames ((extractFrames a).2 ++ b)).1,
        (extractFrames ((extractFrames a).2 ++ b)).2) := by
  induction a using extractFrames.induct with
  | case1 => simp [extractFrames_nilList]
  | case2 c => simp [extractFrames_single]
  | case3 c1 c2 rest hnl ih =>
      obtain ⟨h1, h2⟩ := hnl
      subst h1
      subst h2
      have lhs : ('\n' :: '\n' :: rest) ++ b = '\n' :: '\n' :: (rest ++ b) := rfl
      rw [lhs, extractFrames_blank, extractFrames_blank, ih]
      simp
  | case4 c1 c2 rest hnl l hre ih =>
      have hl : l = c2 :: rest := by
        have h2 := extractFrames_nil_eq (c2 :: rest) (by rw [hre])
        rw [hre] at h2
        exact h2
      have ha : extractFrames (c1 :: c2 :: rest) = ([], c1 :: c2 :: rest) := by
        rw [extractFrames_cons2 rest hnl, hre, hl]
      rw [ha]
      simp
  | case5 c1 c2 rest hnl f fs l hre ih =>
      have ha : extractFrames (c1 :: c2 :: rest) = ((c1 :: f) :: fs, l) := by
        rw [extractFrames_cons2 rest hnl, hre]
      have hcons : (c1 :: c2 :: rest) ++ b = c1 :: c2 :: (rest ++ b) := rfl
      have hbody : extractFrames (c1 :: c2 :: (rest ++ b)) =
          match extractFrames (c2 :: (rest ++ b)) with
          | ([], t) => ([], c1 :: t)
          | (g :: gs, t) => ((c1 :: g) :: gs, t) :=
        extractFrames_cons2 (rest ++ b) hnl
      have ihe : extractFrames (c2 :: (rest ++ b)) =
          ((f :: fs) ++ (extractFrames (l ++ b)).1, (extractFrames (l ++ b)).2) := by
        have h0 : extractFrames ((c2 :: rest) ++ b) =
            ((extractFrames (c2 :: rest)).1
              ++ (extractFrames ((extractFrames (c2 :: rest)).2 ++ b)).1,
              (extractFrames ((extractFrames (c2 :: rest)).2 ++ b)).2) := ih
        rw [hre] at h0
        exact h0
      rw [hcons, hbody, ihe, ha]
      simp

/-! ## The SSE streaming pipeline (`process_stream`)

The stream parser `AnthropicSSEParser` (crate::agent::parsers) is not among
the given sources.  Modelled from the spec: §4.2 specifies it as a
deterministic stateful accumulator with exactly the operations called from
`process_stream`; it is abstracted as the interface `SSEParser` below, and
the fragmentation-invariance theorem is proved for every instance. -/

/-- The fields of `parser.parse_data`'s result read by `process_stream`. -/
structure ParseOutcome where
  tool_start : Option (String × String)
  text_delta : Option String
  is_done : Bool

/-- Modelled from the spec: the interface of `AnthropicSSEParser` as used by
`process_stream` — a deterministic stateful accumulator over `data`
payloads. -/
structure SSEParser (σ : Type) where
  init : σ
  parse_data : σ → String → σ × ParseOutcome
  get_full_content : σ → String
  has_tool_calls : σ → Bool
  finalize_tool_calls : σ → List ToolCall
  get_usage : σ → Option Usage

/-- Rust `str::lines`: split at `'\n'`, drop a final empty segment, strip one
trailing `'\r'` per line. -/
def splitNl : List Char → List (List Char)
  | [] => [[]]
  | c :: rest =>
    if c = '\n' then [] :: splitNl rest
    else
      match splitNl rest with
      | [] => [[c]]
      | seg :: segs => (c :: seg) :: segs

/-- Strip one trailing carriage return. -/
def dropCr (l : List Char) : List Char :=
  if l.getLast? = some '\r' then l.dropLast else l

/-- Rust `str::lines` on a frame. -/
def rustLines (s : List Char) : List (List Char) :=
  let segs := splitNl s
  (if segs.getLast? = some [] then segs.dropLast else segs).map dropCr

/-- `line.strip_prefix(pre)`. -/
def stripPre (pre l : List Char) : Option (List Char) :=
  if pre.isPrefixOf l then some (l.drop pre.length) else none

/-- The per-frame header loop of `process_stream` (`anthropic.rs:377-386`):
extract the `event:` type and the `data:` payload (the last occurrence of
each wins). -/
def frameFields (frame : List Char) : String × String :=
  (rustLines frame).foldl
    (fun acc line =>
      match stripPre ("event: ".toList) line with
      | some e => (String.mk e, acc.2)
      | none =>
        match stripPre ("data: ".toList) line with
        | some d => (acc.1, String.mk d)
        | none => acc)
    ("", "")

/-- Events emitted for one parsed `data` payload (`anthropic.rs:398-412`):
a ToolStart if a tool block opened, then a TextDelta if text arrived. -/
def eventsOf (out : ParseOutcome) : List StreamEvent :=
  (match out.tool_start with
   | some (tool_id, tool_name) => [StreamEvent.toolStart tool_name tool_id none]
   | none => [])
  ++ (match out.text_delta with
      | some t => [StreamEvent.textDelta t]
      | none => [])

/-- Terminal flush (`anthropic.rs:415-437` and `453-475`): the optional Done
event and the final `StreamResult` assembled from the parser state. -/
def finalizeResult {σ : Type} (P : SSEParser σ) (s : σ) (send_done : Bool) :
    List StreamEvent × StreamResult :=
  ((if send_done then [StreamEvent.done (P.get_usage s)] else []),
   { content := P.get_full_content s,
     tool_calls := if P.has_tool_calls s then some (P.finalize_tool_calls s) else none,
     usage := P.get_usage s,
     reasoning_content := none })

/-- State of the frame loop: still accumulating, or terminated early by
`is_done`. -/
inductive RunState (σ : Type) where
  | cont (events : List StreamEvent) (s : σ)
  | finished (events : List StreamEvent) (r : StreamResult)

/-- Process a list of complete frames (the inner `while` body): skip frames
with empty data, feed the rest to the parser, return early on `is_done`. -/
def runFrames {σ : Type} (P : SSEParser σ) (send_done : Bool) :
    σ → List (List Char) → RunState σ
  | s, [] => RunState.cont [] s
  | s, f :: fs =>
    if (frameFields f).2 = "" then runFrames P send_done s fs
    else
      let pr := P.parse_data s (frameFields f).2
      if pr.2.is_done then
        RunState.finished (eventsOf pr.2 ++ (finalizeResult P pr.1 send_done).1)
          (finalizeResult P pr.1 send_done).2
      else
        match runFrames P send_done pr.1 fs with
        | RunState.cont es s' => RunState.cont (eventsOf pr.2 ++ es) s'
        | RunState.finished es r => RunState.finished (eventsOf pr.2 ++ es) r

/-- The chunk loop of `process_stream`: append each chunk to the buffer,
process all complete frames, retain the tail; on exhausted stream flush the
parser. -/
def processChunks {σ : Type} (P : SSEParser σ) (send_done : Bool) :
    σ → List Char → List (List Char) → List StreamEvent × StreamResult
  | s, _, [] => finalizeResult P s send_done
  | s, buffer, c :: cs =>
    match runFrames P send_done s (extractFrames (buffer ++ c)).1 with
    | RunState.finished es r => (es, r)
    | RunState.cont es s' =>
        let rest := processChunks P send_done s' (extractFrames (buffer ++ c)).2 cs
        (es ++ rest.1, rest.2)


/-- Decoding a chunked stream: all frames in order, plus the final retained
tail. -/
def decodeChunks : List Char → List (List Char) → List (List Char) × List Char
  | buffer, [] => ([], buffer)
  | buffer, c :: cs =>
    let er := extractFrames (buffer ++ c)
    let rest := decodeChunks er.2 cs
    (er.1 ++ rest.1, rest.2)

theorem runFrames_cons_empty {σ : Type} (P : SSEParser σ) (sd : Bool) (s : σ)
    (f : List Char) (fs : List (List Char)) (h : (frameFields f).2 = "") :
    runFrames P sd s (f :: fs) = runFrames P sd s fs := by
  rw [runFrames, if_pos h]

theorem runFrames_cons_done {σ : Type} (P : SSEParser σ) (sd : Bool) (s : σ)
    (f : List Char) (fs : List (List Char)) (h : ¬(frameFields f).2 = "")
    (hdone : (P.parse_data s (frameFields f).2).2.is_done = true) :
    runFrames P sd s (f :: fs) =
      RunState.finished
        (eventsOf (P.parse_data s (frameFields f).2).2
          ++ (finalizeResult P (P.parse_data s (frameFields f).2).1 sd).1)
        (finalizeResult P (P.parse_data s (frameFields f).2).1 sd).2 := by
  rw [runFrames, if_neg h]
  simp only [hdone, if_true]

theorem runFrames_cons_cont {σ : Type} (P : SSEParser σ) (sd : Bool) (s : σ)
    (f : List Char) (fs : List (List Char)) (h : ¬(frameFields f).2 = "")
    (hdone : (P.parse_data s (frameFields f).2).2.is_done = false) :
    runFrames P sd s (f :: fs) =
      match runFrames P sd (P.parse_data s (frameFields f).2).1 fs with
      | RunState.cont es s' =>
          RunState.cont (eventsOf (P.parse_data s (frameFields f).2).2 ++ es) s'
      | RunState.finished es r =>
          RunState.finished (eventsOf (P.parse_data s (frameFields f).2).2 ++ es) r := by
  rw [runFrames, if_neg h]
  simp only [hdone, Bool.false_eq_true, if_false]

/-- Frame processing distributes over concatenation of frame lists; a list
finishing early ignores the rest. -/
theorem runFrames_append {σ : Type} (P : SSEParser σ) (sd : Bool)
    (xs ys : List (List Char)) :
    ∀ s : σ, runFrames P sd s (xs ++ ys) =
      match runFrames P sd s xs with
      | RunState.finished es r => RunState.finished es r
      | RunState.cont es s' =>
          match runFrames P sd s' ys with
          | RunState.cont es2 s'' => RunState.cont (es ++ es2) s''
          | RunState.finished es2 r => RunState.finished (es ++ es2) r := by
  induction xs with
  | nil =>
      intro s
      rcases h : runFrames P sd s ys with _ | _ <;>
        simp [runFrames, h]
  | cons f fs ih =>
      intro s
      have hl : (f :: fs) ++ ys = f :: (fs ++ ys) := rfl
      by_cases hd : (frameFields f).2 = ""
      · rw [hl, runFrames_cons_empty P sd s f (fs ++ ys) hd,
            runFrames_cons_empty P sd s f fs hd]
        exact ih s
      · rcases hdone : (P.parse_data s (frameFields f).2).2.is_done with _ | _
        · rw [hl, runFrames_cons_cont P sd s f (fs ++ ys) hd hdone,
              runFrames_cons_cont P sd s f fs hd hdone, ih]
          cases h1 : runFrames P sd (P.parse_data s (frameFields f).2).1 fs with
          | cont es s' =>
              cases h2 : runFrames P sd s' ys with
              | cont es2 s'' => simp [h2, List.append_assoc]
              | finished es2 r => simp [h2, List.append_assoc]
          | finished es r => simp
        · rw [hl, runFrames_cons_done P sd s f (fs ++ ys) hd hdone,
              runFrames_cons_done P sd s f fs hd hdone]

/-- One-shot processing of a whole input as a single chunk. -/
def oneShot {σ : Type} (P : SSEParser σ) (sd : Bool) (s : σ) (input : List Char) :
    List StreamEvent × StreamResult :=
  match runFrames P sd s (extractFrames input).1 with
  | RunState.finished es r => (es, r)
  | RunState.cont es s' =>
      (es ++ (finalizeResult P s' sd).1, (finalizeResult P s' sd).2)

/-- Decoding a chunked stream equals decoding its concatenation. -/
theorem decodeChunks_eq (cs : List (List Char)) :
    ∀ buffer : List Char, extractFrames buffer = ([], buffer) →
      decodeChunks buffer cs = extractFrames (buffer ++ cs.flatten) := by
  induction cs with
  | nil =>
      intro buffer hb
      simp [decodeChunks, hb]
  | cons c cs ih =>
      intro buffer hb
      have hdc := ih (extractFrames (buffer ++ c)).2 (extractFrames_leftover (buffer ++ c))
      calc decodeChunks buffer (c :: cs)
          = ((extractFrames (buffer ++ c)).1
              ++ (decodeChunks (extractFrames (buffer ++ c)).2 cs).1,
             (decodeChunks (extractFrames (buffer ++ c)).2 cs).2) := by
            simp [decodeChunks]
        _ = ((extractFrames (buffer ++ c)).1
              ++ (extractFrames ((extractFrames (buffer ++ c)).2 ++ cs.flatten)).1,
             (extractFrames ((extractFrames (buffer ++ c)).2 ++ cs.flatten)).2) := by
            rw [hdc]
        _ = extractFrames ((buffer ++ c) ++ cs.flatten) := (extractFrames_append _ _).symm
        _ = extractFrames (buffer ++ (c :: cs).flatten) := by
            rw [List.flatten_cons, List.append_assoc]

/-- Chunked stream processing equals one-shot processing of the
concatenated stream, for any buffer already known to hold no complete
frame. -/
theorem processChunks_eq {σ : Type} (P : SSEParser σ) (sd : Bool)
    (cs : List (List Char)) :
    ∀ (s : σ) (buffer : List Char), extractFrames buffer = ([], buffer) →
      processChunks P sd s buffer cs = oneShot P sd s (buffer ++ cs.flatten) := by
  induction cs with
  | nil =>
      intro s buffer hb
      rw [List.flatten_nil, List.append_nil]
      unfold oneShot
      rw [hb]
      show finalizeResult P s sd = _
      have h0 : runFrames P sd s ([] : List (List Char)) = RunState.cont [] s := by
        rw [runFrames]
      rw [h0]
      simp
  | cons c cs ih =>
      intro s buffer hb
      have hflat : buffer ++ (c :: cs).flatten = (buffer ++ c) ++ cs.flatten := by
        rw [List.flatten_cons, List.append_assoc]
      unfold oneShot
      rw [hflat, extractFrames_append (buffer ++ c) cs.flatten]
      show processChunks P sd s buffer (c :: cs) = _
      rw [processChunks]
      rw [runFrames_append]
      cases h1 : runFrames P sd s (extractFrames (buffer ++ c)).1 with
      | cont es s' =>
          have ihe := ih s' (extractFrames (buffer ++ c)).2
            (extractFrames_leftover (buffer ++ c))
          cases h2 : runFrames P sd s'
              (extractFrames ((extractFrames (buffer ++ c)).2 ++ cs.flatten)).1 with
          | cont es2 s'' => simp [ihe, oneShot, h2, List.append_assoc]
          | finished es2 r => simp [ihe, oneShot, h2]
      | finished es r => simp

/-- Character-level fragmentation invariance of the buffer/frame loop: once
the chunks are decoded to text, every chunking of the same character stream
yields the same decoded frames, retained tail, events and final
`StreamResult`. -/
theorem processChunks_fragmentation_invariant {σ : Type} (P : SSEParser σ)
    (send_done : Bool) (cs1 cs2 : List (List Char))
    (hjoin : cs1.flatten = cs2.flatten) :
    decodeChunks [] cs1 = decodeChunks [] cs2
    ∧ processChunks P send_done P.init [] cs1
        = processChunks P send_done P.init [] cs2 := by
  constructor
  · rw [decodeChunks_eq cs1 [] extractFrames_nilList,
        decodeChunks_eq cs2 [] extractFrames_nilList,
        List.nil_append, List.nil_append, hjoin]
  · rw [processChunks_eq P send_done cs1 P.init [] extractFrames_nilList,
        processChunks_eq P send_done cs2 P.init [] extractFrames_nilList,
        List.nil_append, List.nil_append, hjoin]

/-- Modelled from the spec: a minimal concrete `SSEParser` instance used for
witnesses.  The spec fixes the parser's behaviour classes (text deltas
accumulate; a terminal marker finalizes) but not the vendor payload grammar,
so this instance treats any `data` payload as a text delta and the payload
`"message_stop"` as the terminal marker. -/
def specParser : SSEParser (String × Bool) :=
  { init := ("", false),
    parse_data := fun s d =>
      if d = "message_stop" then
        ((s.1, true), { tool_start := none, text_delta := none, is_done := true })
      else
        ((s.1 ++ d, s.2), { tool_start := none, text_delta := some d, is_done := false }),
    get_full_content := fun s => s.1,
    has_tool_calls := fun _ => false,
    finalize_tool_calls := fun _ => [],
    get_usage := fun _ => none }

/-! ## Per-chunk UTF-8 decoding (`String::from_utf8_lossy`, `anthropic.rs:368`)

`process_stream` receives raw byte chunks and converts **each chunk
separately** with `String::from_utf8_lossy` before appending to the text
buffer.  `utf8Lossy` models that conversion (the standard library follows
the Unicode "substitution of maximal subparts" policy: every maximal invalid
or truncated subpart becomes one U+FFFD replacement character).  A chunk
boundary inside a multi-byte character therefore corrupts the character — a
byte-level effect that a purely character-level chunk model cannot
express. -/

/-- Is the byte a UTF-8 continuation byte (`0x80..=0xBF`)? -/
def isCont (b : Nat) : Bool := 0x80 ≤ b && b ≤ 0xBF

/-- The replacement character U+FFFD. -/
def repl : Char := Char.ofNat 0xFFFD

/-- Allowed first continuation byte of a three-byte sequence (excludes
overlong encodings after `0xE0` and surrogates after `0xED`). -/
def validCont3 (b b1 : Nat) : Bool :=
  if b = 0xE0 then 0xA0 ≤ b1 && b1 ≤ 0xBF
  else if b = 0xED then 0x80 ≤ b1 && b1 ≤ 0x9F
  else isCont b1

/-- Allowed first continuation byte of a four-byte sequence (excludes
overlong encodings after `0xF0` and code points past U+10FFFF after
`0xF4`). -/
def validCont4 (b b1 : Nat) : Bool :=
  if b = 0xF0 then 0x90 ≤ b1 && b1 ≤ 0xBF
  else if b = 0xF4 then 0x80 ≤ b1 && b1 ≤ 0x8F
  else isCont b1

/-- `String::from_utf8_lossy` on one chunk: decode valid sequences, replace
every maximal invalid subpart (including a truncated sequence at the end of
the chunk) with one U+FFFD. -/
def utf8Lossy : List Nat → List Char
  | [] => []
  | b :: rest =>
    if b ≤ 0x7F then Char.ofNat b :: utf8Lossy rest
    else
      match rest with
      | [] => [repl]
      | b1 :: rest1 =>
        if 0xC2 ≤ b ∧ b ≤ 0xDF then
          if isCont b1 then
            Char.ofNat ((b - 0xC0) * 64 + (b1 - 0x80)) :: utf8Lossy rest1
          else repl :: utf8Lossy (b1 :: rest1)
        else if 0xE0 ≤ b ∧ b ≤ 0xEF then
          if validCont3 b b1 then
            match rest1 with
            | [] => [repl]
            | b2 :: rest2 =>
                if isCont b2 then
                  Char.ofNat ((b - 0xE0) * 4096 + (b1 - 0x80) * 64 + (b2 - 0x80))
                    :: utf8Lossy rest2
                else repl :: utf8Lossy (b2 :: rest2)
          else repl :: utf8Lossy (b1 :: rest1)
        else if 0xF0 ≤ b ∧ b ≤ 0xF4 then
          if validCont4 b b1 then
            match rest1 with
            | [] => [repl]
            | b2 :: rest2 =>
                if isCont b2 then
                  match rest2 with
                  | [] => [repl]
                  | b3 :: rest3 =>
                      if isCont b3 then
                        Char.ofNat ((b - 0xF0) * 262144 + (b1 - 0x80) * 4096
                            + (b2 - 0x80) * 64 + (b3 - 0x80)) :: utf8Lossy rest3
                      else repl :: utf8Lossy (b3 :: rest3)
                else repl :: utf8Lossy (b2 :: rest2)
          else repl :: utf8Lossy (b1 :: rest1)
        else repl :: utf8Lossy (b1 :: rest1)

/-- Is the byte list strictly valid, complete UTF-8?  This is the predicate
that makes a chunk boundary "character aligned": a chunking whose every
chunk satisfies it never splits inside a character. -/
def utf8Valid : List Nat → Bool
  | [] => true
  | b :: rest =>
    if b ≤ 0x7F then utf8Valid rest
    else
      match rest with
      | [] => false
      | b1 :: rest1 =>
        if 0xC2 ≤ b ∧ b ≤ 0xDF then isCont b1 && utf8Valid rest1
        else if 0xE0 ≤ b ∧ b ≤ 0xEF then
          match rest1 with
          | [] => false
          | b2 :: rest2 => validCont3 b b1 && (isCont b2 && utf8Valid rest2)
        else if 0xF0 ≤ b ∧ b ≤ 0xF4 then
          match rest1 with
          | [] => false
          | b2 :: rest2 =>
            match rest2 with
            | [] => false
            | b3 :: rest3 =>
                validCont4 b b1 && (isCont b2 && (isCont b3 && utf8Valid rest3))
        else false

/-- The chunk loop of `process_stream` on raw byte chunks
(`anthropic.rs:365-451`): each chunk is decoded with the per-chunk lossy
conversion, appended to the buffer, and the complete frames are processed. -/
def processByteChunks {σ : Type} (P : SSEParser σ) (send_done : Bool) :
    σ → List Char → List (List Nat) → List StreamEvent × StreamResult
  | s, _, [] => finalizeResult P s send_done
  | s, buffer, c :: cs =>
    match runFrames P send_done s (extractFrames (buffer ++ utf8Lossy c)).1 with
    | RunState.finished es r => (es, r)
    | RunState.cont es s' =>
        let rest := processByteChunks P send_done s' (extractFrames (buffer ++ utf8Lossy c)).2 cs
        (es ++ rest.1, rest.2)

/-- `AnthropicProtocol::process_stream` on the chunked byte stream (each
chunk is the `Ok(bytes)` of one read). -/
def process_stream {σ : Type} (P : SSEParser σ) (send_done : Bool)
    (chunks : List (List Nat)) : List StreamEvent × StreamResult :=
  processByteChunks P send_done P.init [] chunks

/-- The byte loop is the character loop applied to the per-chunk decoded
text (the decode carries no state across chunks). -/
theorem processByteChunks_eq_map {σ : Type} (P : SSEParser σ) (sd : Bool)
    (cs : List (List Nat)) :
    ∀ (s : σ) (buffer : List Char),
      processByteChunks P sd s buffer cs
        = processChunks P sd s buffer (cs.map utf8Lossy) := by
  induction cs with
  | nil => intro s buffer; rfl
  | cons c cs ih =>
      intro s buffer
      show (match runFrames P sd s (extractFrames (buffer ++ utf8Lossy c)).1 with
        | RunState.finished es r => (es, r)
        | RunState.cont es s' =>
            let rest := processByteChunks P sd s' (extractFrames (buffer ++ utf8Lossy c)).2 cs
            (es ++ rest.1, rest.2)) = _
      cases h1 : runFrames P sd s (extractFrames (buffer ++ utf8Lossy c)).1 with
      | finished es r => simp [processChunks, h1]
      | cont es s' => simp [processChunks, h1, ih]

/-! ### UTF-8 decode lemmas for character-aligned chunkings -/

theorem utf8Valid_ascii {b : Nat} (l : List Nat) (h : b ≤ 0x7F) :
    utf8Valid (b :: l) = utf8Valid l := by
  rw [utf8Valid.eq_def]; simp [h]

theorem utf8Valid_single {b : Nat} (h0 : ¬ b ≤ 0x7F) :
    utf8Valid [b] = false := by
  rw [utf8Valid.eq_def]; simp [h0]

theorem utf8Valid_pair {b : Nat} (b1 : Nat) (h0 : ¬ b ≤ 0x7F)
    (h2 : ¬ (0xC2 ≤ b ∧ b ≤ 0xDF)) :
    utf8Valid [b, b1] = false := by
  rw [utf8Valid.eq_def]; simp [h0, h2]

theorem utf8Valid_triple {b : Nat} (b1 b2 : Nat) (h0 : ¬ b ≤ 0x7F)
    (h2 : ¬ (0xC2 ≤ b ∧ b ≤ 0xDF)) (h3 : ¬ (0xE0 ≤ b ∧ b ≤ 0xEF)) :
    utf8Valid [b, b1, b2] = false := by
  rw [utf8Valid.eq_def]; simp [h0, h2, h3]

theorem utf8Valid_two_cons {b : Nat} (b1 : Nat) (l : List Nat)
    (h0 : ¬ b ≤ 0x7F) (h2 : 0xC2 ≤ b ∧ b ≤ 0xDF) :
    utf8Valid (b :: b1 :: l) = (isCont b1 && utf8Valid l) := by
  rw [utf8Valid.eq_def]; simp [h0, h2.1, h2.2]

theorem utf8Valid_three_cons {b : Nat} (b1 b2 : Nat) (l : List Nat)
    (h0 : ¬ b ≤ 0x7F) (h3 : 0xE0 ≤ b ∧ b ≤ 0xEF) :
    utf8Valid (b :: b1 :: b2 :: l)
      = (validCont3 b b1 && (isCont b2 && utf8Valid l)) := by
  have h2 : ¬ (0xC2 ≤ b ∧ b ≤ 0xDF) := by omega
  rw [utf8Valid.eq_def]; simp [h0, h2, h3.1, h3.2]

theorem utf8Valid_four_cons {b : Nat} (b1 b2 b3 : Nat) (l : List Nat)
    (h0 : ¬ b ≤ 0x7F) (h4 : 0xF0 ≤ b ∧ b ≤ 0xF4) :
    utf8Valid (b :: b1 :: b2 :: b3 :: l)
      = (validCont4 b b1 && (isCont b2 && (isCont b3 && utf8Valid l))) := by
  have h2 : ¬ (0xC2 ≤ b ∧ b ≤ 0xDF) := by omega
  have h3 : ¬ (0xE0 ≤ b ∧ b ≤ 0xEF) := by omega
  rw [utf8Valid.eq_def]; simp [h0, h2, h3, h4.1, h4.2]

theorem utf8Valid_bad {b : Nat} (l : List Nat) (h0 : ¬ b ≤ 0x7F)
    (h2 : ¬ (0xC2 ≤ b ∧ b ≤ 0xDF)) (h3 : ¬ (0xE0 ≤ b ∧ b ≤ 0xEF))
    (h4 : ¬ (0xF0 ≤ b ∧ b ≤ 0xF4)) : utf8Valid (b :: l) = false := by
  rw [utf8Valid.eq_def]
  rcases l with _ | ⟨b1, l1⟩
  · simp [h0]
  · rcases l1 with _ | ⟨b2, l2⟩
    · simp [h0, h2, h3, h4]
    · rcases l2 with _ | ⟨b3, l3⟩
      · simp [h0, h2, h3, h4]
      · simp [h0, h2, h3, h4]

theorem utf8Lossy_ascii {b : Nat} (l : List Nat) (h : b ≤ 0x7F) :
    utf8Lossy (b :: l) = Char.ofNat b :: utf8Lossy l := by
  rw [utf8Lossy.eq_def]; simp [h]

theorem utf8Lossy_two {b : Nat} (b1 : Nat) (l : List Nat)
    (h2 : 0xC2 ≤ b ∧ b ≤ 0xDF) (hc : isCont b1 = true) :
    utf8Lossy (b :: b1 :: l)
      = Char.ofNat ((b - 0xC0) * 64 + (b1 - 0x80)) :: utf8Lossy l := by
  have h0 : ¬ b ≤ 0x7F := by omega
  rw [utf8Lossy.eq_def]; simp [h0, h2.1, h2.2, hc]

theorem utf8Lossy_three {b : Nat} (b1 b2 : Nat) (l : List Nat)
    (h3 : 0xE0 ≤ b ∧ b ≤ 0xEF) (hc1 : validCont3 b b1 = true)
    (hc2 : isCont b2 = true) :
    utf8Lossy (b :: b1 :: b2 :: l)
      = Char.ofNat ((b - 0xE0) * 4096 + (b1 - 0x80) * 64 + (b2 - 0x80))
          :: utf8Lossy l := by
  have h0 : ¬ b ≤ 0x7F := by omega
  have h2 : ¬ (0xC2 ≤ b ∧ b ≤ 0xDF) := by omega
  rw [utf8Lossy.eq_def]; simp [h0, h2, h3.1, h3.2, hc1, hc2]

theorem utf8Lossy_four {b : Nat} (b1 b2 b3 : Nat) (l : List Nat)
    (h4 : 0xF0 ≤ b ∧ b ≤ 0xF4) (hc1 : validCont4 b b1 = true)
    (hc2 : isCont b2 = true) (hc3 : isCont b3 = true) :
    utf8Lossy (b :: b1 :: b2 :: b3 :: l)
      = Char.ofNat ((b - 0xF0) * 262144 + (b1 - 0x80) * 4096
          + (b2 - 0x80) * 64 + (b3 - 0x80)) :: utf8Lossy l := by
  have h0 : ¬ b ≤ 0x7F := by omega
  have h2 : ¬ (0xC2 ≤ b ∧ b ≤ 0xDF) := by omega
  have h3 : ¬ (0xE0 ≤ b ∧ b ≤ 0xEF) := by omega
  rw [utf8Lossy.eq_def]; simp [h0, h2, h3, h4.1, h4.2, hc1, hc2, hc3]

theorem utf8Lossy_nilList : utf8Lossy [] = [] := rfl

/-- Decoding a valid, complete chunk commutes with concatenation: nothing of
the chunk is left pending at the boundary. -/
theorem utf8Lossy_append_valid :
    ∀ (n : Nat) (a c : List Nat), a.length ≤ n → utf8Valid a = true →
      utf8Lossy (a ++ c) = utf8Lossy a ++ utf8Lossy c := by
  intro n
  induction n with
  | zero =>
      intro a c hlen _
      have : a = [] := List.eq_nil_of_length_eq_zero (Nat.le_zero.mp hlen)
      subst this
      simp [utf8Lossy_nilList]
  | succ n ih =>
      intro a c hlen hv
      rcases a with _ | ⟨b, rest⟩
      · simp [utf8Lossy_nilList]
      · by_cases h0 : b ≤ 0x7F
        · rw [utf8Valid_ascii rest h0] at hv
          rw [List.cons_append, utf8Lossy_ascii (rest ++ c) h0,
              utf8Lossy_ascii rest h0, List.cons_append,
              ih rest c (by simp at hlen; omega) hv]
        · by_cases h2 : 0xC2 ≤ b ∧ b ≤ 0xDF
          · rcases rest with _ | ⟨b1, rest1⟩
            · rw [utf8Valid_single h0] at hv
              cases hv
            · rw [utf8Valid_two_cons b1 rest1 h0 h2] at hv
              have hc := (Bool.and_eq_true_iff.mp hv).1
              have hv1 := (Bool.and_eq_true_iff.mp hv).2
              rw [List.cons_append, List.cons_append, utf8Lossy_two b1 (rest1 ++ c) h2 hc,
                  utf8Lossy_two b1 rest1 h2 hc, List.cons_append,
                  ih rest1 c (by simp at hlen; omega) hv1]
          · by_cases h3 : 0xE0 ≤ b ∧ b ≤ 0xEF
            · rcases rest with _ | ⟨b1, rest1⟩
              · rw [utf8Valid_single h0] at hv
                cases hv
              · rcases rest1 with _ | ⟨b2, rest2⟩
                · rw [utf8Valid_pair b1 h0 h2] at hv
                  cases hv
                · rw [utf8Valid_three_cons b1 b2 rest2 h0 h3] at hv
                  have hc1 := (Bool.and_eq_true_iff.mp hv).1
                  have hc2 := (Bool.and_eq_true_iff.mp (Bool.and_eq_true_iff.mp hv).2).1
                  have hv2 := (Bool.and_eq_true_iff.mp (Bool.and_eq_true_iff.mp hv).2).2
                  rw [List.cons_append, List.cons_append, List.cons_append,
                      utf8Lossy_three b1 b2 (rest2 ++ c) h3 hc1 hc2,
                      utf8Lossy_three b1 b2 rest2 h3 hc1 hc2, List.cons_append,
                      ih rest2 c (by simp at hlen; omega) hv2]
            · by_cases h4 : 0xF0 ≤ b ∧ b ≤ 0xF4
              · rcases rest with _ | ⟨b1, rest1⟩
                · rw [utf8Valid_single h0] at hv
                  cases hv
                · rcases rest1 with _ | ⟨b2, rest2⟩
                  · rw [utf8Valid_pair b1 h0 h2] at hv
                    cases hv
                  · rcases rest2 with _ | ⟨b3, rest3⟩
                    · rw [utf8Valid_triple b1 b2 h0 h2 h3] at hv
                      cases hv
                    · rw [utf8Valid_four_cons b1 b2 b3 rest3 h0 h4] at hv
                      have hc1 := (Bool.and_eq_true_iff.mp hv).1
                      have hrest := (Bool.and_eq_true_iff.mp hv).2
                      have hc2 := (Bool.and_eq_true_iff.mp hrest).1
                      have hrest2 := (Bool.and_eq_true_iff.mp hrest).2
                      have hc3 := (Bool.and_eq_true_iff.mp hrest2).1
                      have hv3 := (Bool.and_eq_true_iff.mp hrest2).2
                      rw [List.cons_append, List.cons_append, List.cons_append,
                          List.cons_append,
                          utf8Lossy_four b1 b2 b3 (rest3 ++ c) h4 hc1 hc2 hc3,
                          utf8Lossy_four b1 b2 b3 rest3 h4 hc1 hc2 hc3,
                          List.cons_append,
                          ih rest3 c (by simp at hlen; omega) hv3]
              · rw [utf8Valid_bad rest h0 h2 h3 h4] at hv
                cases hv

/-- For a chunking whose chunks are each valid UTF-8, decoding per chunk and
concatenating equals decoding the whole byte stream. -/
theorem utf8Lossy_map_flatten (bs : List (List Nat))
    (hv : ∀ c ∈ bs, utf8Valid c = true) :
    (bs.map utf8Lossy).flatten = utf8Lossy bs.flatten := by
  induction bs with
  | nil => rfl
  | cons c bs ih =>
      rw [List.map_cons, List.flatten_cons, List.flatten_cons,
          utf8Lossy_append_valid c.length c bs.flatten (Nat.le_refl _)
            (hv c (List.mem_cons_self c bs)),
          ih (fun c' hc' => hv c' (List.mem_cons_of_mem c hc'))]

/-- C2 (amended): `process_stream` converts each received byte chunk with
`String::from_utf8_lossy` and feeds the text to the blank-line frame
decoder; for every byte stream and every pair of chunkings that split it at
UTF-8 character boundaries (every chunk valid UTF-8), it decodes the same
sequence of complete frames, carries the same incomplete tail across
chunks, and produces identical events and an identical final `StreamResult`
for every deterministic parser instance.  For a split inside a multi-byte
character the per-chunk lossy conversion corrupts the character to U+FFFD
and the results may differ (see the counterexample), so the unrestricted
"byte-by-byte" claim fails. -/
theorem process_stream_fragmentation_invariant {σ : Type} (P : SSEParser σ)
    (send_done : Bool) (bs1 bs2 : List (List Nat))
    (hbytes : bs1.flatten = bs2.flatten)
    (hv1 : ∀ c ∈ bs1, utf8Valid c = true)
    (hv2 : ∀ c ∈ bs2, utf8Valid c = true) :
    decodeChunks [] (bs1.map utf8Lossy) = decodeChunks [] (bs2.map utf8Lossy)
    ∧ process_stream P send_done bs1 = process_stream P send_done bs2 := by
  have hjoin : (bs1.map utf8Lossy).flatten = (bs2.map utf8Lossy).flatten := by
    rw [utf8Lossy_map_flatten bs1 hv1, utf8Lossy_map_flatten bs2 hv2, hbytes]
  have hchar := processChunks_fragmentation_invariant P send_done
    (bs1.map utf8Lossy) (bs2.map utf8Lossy) hjoin
  refine ⟨hchar.1, ?_⟩
  unfold process_stream
  rw [processByteChunks_eq_map, processByteChunks_eq_map]
  exact hchar.2

/-- The UTF-8 bytes of `"data: 好\n\n"` (the character 好 is
`0xE5 0xA5 0xBD`). -/
def sseBytesHao : List Nat :=
  [0x64, 0x61, 0x74, 0x61, 0x3A, 0x20, 0xE5, 0xA5, 0xBD, 0x0A, 0x0A]

/-- Witness for the amended C2: one chunk versus a split between the ASCII
header and the multi-byte character — both chunks valid UTF-8 — give
identical frames and an identical result. -/
theorem process_stream_fragmentation_invariant_witness :
    decodeChunks [] ([sseBytesHao].map utf8Lossy)
      = decodeChunks [] ([sseBytesHao.take 6, sseBytesHao.drop 6].map utf8Lossy)
    ∧ process_stream specParser true [sseBytesHao]
      = process_stream specParser true [sseBytesHao.take 6, sseBytesHao.drop 6] :=
  process_stream_fragmentation_invariant specParser true [sseBytesHao]
    [sseBytesHao.take 6, sseBytesHao.drop 6] (by decide) (by decide) (by decide)

/-- C2 counterexample: the same byte stream split **inside** the multi-byte
character 好 (after its lead byte `0xE5`).  Per-chunk lossy decoding turns
the truncated lead into one U+FFFD and the two orphaned continuation bytes
into two more, so the frame content and the final `StreamResult` differ
from the unsplit stream: the invariance does not hold for arbitrary
byte-level splits. -/
theorem process_stream_fragmentation_counterexample :
    [sseBytesHao.take 7, sseBytesHao.drop 7].flatten = [sseBytesHao].flatten
    ∧ (process_stream specParser true [sseBytesHao]).2.content = "好"
    ∧ (process_stream specParser true
        [sseBytesHao.take 7, sseBytesHao.drop 7]).2.content = "\uFFFD\uFFFD\uFFFD"
    ∧ process_stream specParser true [sseBytesHao]
        ≠ process_stream specParser true [sseBytesHao.take 7, sseBytesHao.drop 7] := by
  refine ⟨by decide, by decide, by decide, by decide⟩

/-! ## Message conversion (`convert_to_anthropic_message`, `build_messages`)

`serde_json::from_str` (an external crate) is passed in as the `parseJson`
parameter; none of the proved properties depend on its behaviour. -/

/-- `AnthropicProtocol` — carries the system-prompt format flag. -/
structure AnthropicProtocol where
  use_array_system_format : Bool

/-- `AnthropicProtocol::new`. -/
def AnthropicProtocol.new : AnthropicProtocol := ⟨false⟩

/-- `AnthropicProtocol::with_array_system_format`. -/
def AnthropicProtocol.with_array_system_format : AnthropicProtocol := ⟨true⟩

/-- `AnthropicProtocol::build_system_field` (`anthropic.rs:67-76`). -/
def build_system_field (self : AnthropicProtocol) (prompt : String) : Json :=
  if self.use_array_system_format then
    Json.arr [Json.obj [("type", Json.str "text"), ("text", Json.str prompt)]]
  else
    Json.str prompt

/-- `str::strip_suffix`. -/
def stripSuf (suf l : List Char) : Option (List Char) :=
  if suf.isSuffixOf l then some (l.take (l.length - suf.length)) else none

/-- The `ContentPart::ImageUrl` conversion (`anthropic.rs:161-187`): decode a
`data:` URL into a base64 source block, pass other URLs through. -/
def imagePartToJson (url : String) : Json :=
  match stripPre ("data:".toList) url.toList with
  | some rest =>
    match rest.findIdx? (fun c => c = ',') with
    | some comma_idx =>
        let mtPart := rest.take comma_idx
        let media_type :=
          match stripSuf (";base64".toList) mtPart with
          | some m => m
          | none => mtPart
        Json.obj [("type", Json.str "image"),
                  ("source", Json.obj [("type", Json.str "base64"),
                                       ("media_type", Json.str (String.mk media_type)),
                                       ("data", Json.str (String.mk (rest.drop (comma_idx + 1))))])]
    | none =>
        Json.obj [("type", Json.str "image"),
                  ("source", Json.obj [("type", Json.str "url"), ("url", Json.str url)])]
  | none =>
      Json.obj [("type", Json.str "image"),
                ("source", Json.obj [("type", Json.str "url"), ("url", Json.str url)])]

/-- `AnthropicProtocol::convert_to_anthropic_message` (`anthropic.rs:99-202`). -/
def convert_to_anthropic_message (parseJson : String → Option Json)
    (msg : AgentMessage) : AnthropicMessage :=
  let content :=
    match msg.content with
    | MessageContent.text text =>
      if msg.role = "tool" then
        match msg.tool_call_id with
        | some tool_call_id =>
            Json.arr [Json.obj [("type", Json.str "tool_result"),
                                ("tool_use_id", Json.str tool_call_id),
                                ("content", Json.str text)]]
        | none => Json.str text
      else if msg.role = "assistant" then
        let blocks : List Json :=
          (if text ≠ "" then
            [Json.obj [("type", Json.str "text"), ("text", Json.str text)]]
          else [])
          ++ (match msg.tool_calls with
              | some tool_calls =>
                  tool_calls.map (fun tc =>
                    Json.obj [("type", Json.str "tool_use"),
                              ("id", Json.str tc.id),
                              ("name", Json.str tc.function.name),
                              ("input", (parseJson tc.function.arguments).getD (Json.obj []))])
              | none => [])
        if blocks.isEmpty then Json.str ""
        else if blocks.length = 1 ∧ msg.tool_calls = none then Json.str text
        else Json.arr blocks
      else Json.str text
    | MessageContent.parts parts =>
        Json.arr (parts.map (fun p =>
          match p with
          | ContentPart.text t =>
              Json.obj [("type", Json.str "text"), ("text", Json.str t)]
          | ContentPart.imageUrl url => imagePartToJson url))
  { role := if msg.role = "tool" then "user" else msg.role,
    content := content }

/-- `AnthropicProtocol::build_messages` (`anthropic.rs:205-259`): the loop
with its `continue` on system messages is the filter/map below. -/
def build_messages (self : AnthropicProtocol) (parseJson : String → Option Json)
    (history : List AgentMessage) (user_message : String)
    (images : Option (List ImageData)) (config : AgentConfig) (now : String) :
    List AnthropicMessage × Option Json :=
  let system_prompt := config.system_prompt.map (build_system_field self)
  let validated := validate_tool_message_pairs history now
  let messages := (validated.filter (fun m => ¬ m.role = "system")).map
    (convert_to_anthropic_message parseJson)
  let user_content :=
    match images with
    | some imgs =>
        Json.arr (Json.obj [("type", Json.str "text"), ("text", Json.str user_message)]
          :: imgs.map (fun img =>
              Json.obj [("type", Json.str "image"),
                        ("source", Json.obj [("type", Json.str "base64"),
                                             ("media_type", Json.str img.media_type),
                                             ("data", Json.str img.data)])]))
    | none => Json.str user_message
  (messages ++ [{ role := "user", content := user_content }], system_prompt)

/-- `AnthropicProtocol::build_messages_from_history` (`anthropic.rs:262-287`). -/
def build_messages_from_history (self : AnthropicProtocol)
    (parseJson : String → Option Json) (history : List AgentMessage)
    (config : AgentConfig) (now : String) : List AnthropicMessage × Option Json :=
  let system_prompt := config.system_prompt.map (build_system_field self)
  let validated := validate_tool_message_pairs history now
  ((validated.filter (fun m => ¬ m.role = "system")).map
      (convert_to_anthropic_message parseJson),
   system_prompt)

/-- C8 (amended): both builders put the system prompt only into the separate
`system` field and transmit no message with role `"system"`; every tool-role
message is remapped to role `"user"`; and every tool-role message with plain
text content and a `tool_call_id` (all retained ones have one) is converted
to a structured `tool_result` content block.  A tool-role message whose
content is structured parts keeps its parts blocks instead of a
`tool_result` block (see the counterexample), which is why the block
guarantee is restricted to text content. -/
theorem build_messages_excludes_system (self : AnthropicProtocol)
    (pj : String → Option Json) (history : List AgentMessage)
    (user_message : String) (images : Option (List ImageData))
    (config : AgentConfig) (now : String) :
    ((build_messages self pj history user_message images config now).2
        = config.system_prompt.map (build_system_field self))
    ∧ (∀ am ∈ (build_messages self pj history user_message images config now).1,
        am.role ≠ "system")
    ∧ ((build_messages_from_history self pj history config now).2
        = config.system_prompt.map (build_system_field self))
    ∧ (∀ am ∈ (build_messages_from_history self pj history config now).1,
        am.role ≠ "system")
    ∧ (∀ m : AgentMessage, m.role = "tool" →
        (convert_to_anthropic_message pj m).role = "user")
    ∧ (∀ (m : AgentMessage) (t : String) (id : String), m.role = "tool" →
        m.content = MessageContent.text t → m.tool_call_id = some id →
        (convert_to_anthropic_message pj m).content =
          Json.arr [Json.obj [("type", Json.str "tool_result"),
                              ("tool_use_id", Json.str id),
                              ("content", Json.str t)]]) := by
  have hconvrole : ∀ m : AgentMessage, m.role ≠ "system" →
      (convert_to_anthropic_message pj m).role ≠ "system" := by
    intro m hm
    unfold convert_to_anthropic_message
    by_cases ht : m.role = "tool"
    · simp [ht]
    · simp [ht, hm]
  refine ⟨rfl, ?_, rfl, ?_, ?_, ?_⟩
  · intro am ham
    unfold build_messages at ham
    rcases List.mem_append.mp ham with h1 | h2
    · obtain ⟨m, hm, rfl⟩ := List.mem_map.mp h1
      exact hconvrole m (by simpa using (List.mem_filter.mp hm).2)
    · have ham2 := List.mem_singleton.mp h2
      subst ham2
      simp
  · intro am ham
    unfold build_messages_from_history at ham
    obtain ⟨m, hm, rfl⟩ := List.mem_map.mp ham
    exact hconvrole m (by simpa using (List.mem_filter.mp hm).2)
  · intro m hm
    unfold convert_to_anthropic_message
    simp [hm]
  · intro m t id hrole hcontent hid
    unfold convert_to_anthropic_message
    rw [hcontent]
    simp [hrole, hid]

/-- A retained tool-result message carrying structured parts content. -/
def toolPartsMsg : AgentMessage :=
  { role := "tool",
    content := MessageContent.parts [ContentPart.text "hi"],
    timestamp := "2024-01-01T00:00:01Z",
    tool_calls := none,
    tool_call_id := some "t1",
    reasoning_content := none }

/-- History in which `toolPartsMsg` answers a declared call and is
retained. -/
def historyPartsTool : List AgentMessage :=
  [{ role := "assistant",
     content := MessageContent.text "",
     timestamp := "2024-01-01T00:00:00Z",
     tool_calls := some [{ id := "t1", function := { name := "run", arguments := "null" } }],
     tool_call_id := none,
     reasoning_content := none },
   toolPartsMsg]

/-- Is one JSON object a `{"type": "tool_result", ...}` block? -/
def isToolResultObj : Json → Bool
  | Json.obj fs =>
      fs.any (fun kv => kv.1 = "type"
        && (match kv.2 with | Json.str s => s = "tool_result" | _ => false))
  | _ => false

/-- Does a JSON content value contain a `tool_result` block? -/
def hasToolResultBlock : Json → Bool
  | Json.arr xs => xs.any isToolResultObj
  | _ => false

/-- C8 counterexample: a tool-role message with structured-parts content is
retained by the repair pass and remapped to role `"user"`, but its converted
content carries no `tool_result` block. -/
theorem convert_tool_parts_counterexample :
    toolPartsMsg ∈ validate_tool_message_pairs historyPartsTool "2024-01-01T00:00:02Z"
    ∧ toolPartsMsg.role = "tool"
    ∧ (convert_to_anthropic_message (fun _ => none) toolPartsMsg).role = "user"
    ∧ hasToolResultBlock
        (convert_to_anthropic_message (fun _ => none) toolPartsMsg).content = false := by
  refine ⟨by decide, rfl, rfl, rfl⟩

/-- Witness for C8 at a concrete tool message with text content: role is
remapped to `"user"` and the content is a single `tool_result` block. -/
theorem build_messages_excludes_system_witness :
    (convert_to_anthropic_message (fun _ => none)
        { role := "tool",
          content := MessageContent.text "ok",
          timestamp := "2024-01-01T00:00:00Z",
          tool_calls := none,
          tool_call_id := some "t1",
          reasoning_content := none }).role = "user"
    ∧ (convert_to_anthropic_message (fun _ => none)
        { role := "tool",
          content := MessageContent.text "ok",
          timestamp := "2024-01-01T00:00:00Z",
          tool_calls := none,
          tool_call_id := some "t1",
          reasoning_content := none }).content =
      Json.arr [Json.obj [("type", Json.str "tool_result"),
                          ("tool_use_id", Json.str "t1"),
                          ("content", Json.str "ok")]] :=
  ⟨(build_messages_excludes_system AnthropicProtocol.new (fun _ => none) [] "" none
      ⟨none, none, none⟩ "now").2.2.2.2.1 _ rfl,
   (build_messages_excludes_system AnthropicProtocol.new (fun _ => none) [] "" none
      ⟨none, none, none⟩ "now").2.2.2.2.2 _ "ok" "t1" rfl rfl rfl⟩

/-! ## Non-2xx response handling (`chat_stream` / `chat_stream_continue`,
`anthropic.rs:540-552` and `649-662`)

The HTTP exchange itself is outside the model; the embedding starts at the
received status and body.  `reqwest::StatusCode::is_success` is the 2xx
range; Rust's `Display` for `StatusCode` also appends the canonical reason
phrase, modelled here as the bare numeric code. -/

/-- `StatusCode::is_success`. -/
def statusIsSuccess (status : Nat) : Bool :=
  decide (200 ≤ status) && decide (status < 300)

/-- The post-send phase of `chat_stream`: a non-2xx status emits one Error
event carrying status and body and returns `Err` without touching the byte
stream; a 2xx status hands the decoded stream to the frame/parser loop with
`send_done = true`. -/
def chat_stream_response {σ : Type} (P : SSEParser σ) (status : Nat)
    (body : String) (chunks : List (List Char)) :
    List StreamEvent × Except String StreamResult :=
  if statusIsSuccess status then
    ((processChunks P true P.init [] chunks).1,
      Except.ok (processChunks P true P.init [] chunks).2)
  else
    ([StreamEvent.error ("API 错误 (" ++ toString status ++ "): " ++ body)],
      Except.error ("API 错误: " ++ toString status))

/-- The post-send phase of `chat_stream_continue`: identical, except the
terminal Done event is suppressed (`send_done = false`). -/
def chat_stream_continue_response {σ : Type} (P : SSEParser σ) (status : Nat)
    (body : String) (chunks : List (List Char)) :
    List StreamEvent × Except String StreamResult :=
  if statusIsSuccess status then
    ((processChunks P false P.init [] chunks).1,
      Except.ok (processChunks P false P.init [] chunks).2)
  else
    ([StreamEvent.error ("API 错误 (" ++ toString status ++ "): " ++ body)],
      Except.error ("API 错误: " ++ toString status))

/-- C7: on a non-2xx status both entry points emit exactly one terminal
Error event carrying the raw status code and the verbatim body, return an
error (no internal retry exists in the function), and never process the byte
stream — the outcome is independent of the stream contents. -/
theorem chat_stream_non_success_terminal {σ : Type} (P : SSEParser σ)
    (status : Nat) (body : String) (chunks chunks' : List (List Char))
    (h : ¬ (200 ≤ status ∧ status < 300)) :
    chat_stream_response P status body chunks =
      ([StreamEvent.error ("API 错误 (" ++ toString status ++ "): " ++ body)],
        Except.error ("API 错误: " ++ toString status))
    ∧ chat_stream_response P status body chunks
        = chat_stream_response P status body chunks'
    ∧ chat_stream_continue_response P status body chunks =
        ([StreamEvent.error ("API 错误 (" ++ toString status ++ "): " ++ body)],
          Except.error ("API 错误: " ++ toString status))
    ∧ chat_stream_continue_response P status body chunks
        = chat_stream_continue_response P status body chunks' := by
  have hs : statusIsSuccess status = false := by
    unfold statusIsSuccess
    rcases Nat.lt_or_ge status 200 with h1 | h1
    · simp [Nat.not_le.mpr h1]
    · have h2 : ¬ status < 300 := fun h2 => h ⟨h1, h2⟩
      simp [h2]
  refine ⟨?_, ?_, ?_, ?_⟩ <;>
    simp [chat_stream_response, chat_stream_continue_response, hs]

/-- Witness for C7 at a concrete non-2xx status. -/
theorem chat_stream_non_success_terminal_witness :
    chat_stream_response specParser 404 "not found" ["data: Hi\n\n".toList] =
      ([StreamEvent.error "API 错误 (404): not found"],
        Except.error "API 错误: 404") :=
  (chat_stream_non_success_terminal specParser 404 "not found"
      ["data: Hi\n\n".toList] [] (by decide)).1

/-! ## The terminal correlation bridge (`terminal.rs`)

`TerminalTool` state: the pending-command table (`HashMap<String,
PendingCommand>`, an association list here, each slot carrying its oneshot
channel modelled as a numeric channel id), the executed-command history, and
the optional `AppHandle`.  Oneshot channels are modelled by their observable
effects: `closed` holds the channel ids whose receiver has been dropped, and
`delivered` records every value successfully sent into a channel.  `tokio`
timeouts and the async wait are modelled by the `AwaitEnv` oracle: what the
bounded wait of one call observes (a fulfillment arriving in time, a closed
channel, or expiry).  A fulfillment that arrives in time is exactly a
`handle_response` call made by the frontend, which is how the code removes
the entry on the delivered path; a fulfillment for this call necessarily
carries this call's request id, since only that id resolves its slot.

The types `ToolResult`/`ToolError` live in `agent/tools/types.rs`, which is
not among the given sources.  Modelled from the spec: a tool result is a
success flag with output and optional error (`ToolResult::success(output)`,
`ToolResult::failure_with_output(output, error)`), and `ToolError` has the
variants used in `terminal.rs`. -/

/-- `TerminalCommandRequest` (`terminal.rs:30-39`). -/
structure TerminalCommandRequest where
  request_id : String
  command : String
  working_dir : Option String
  timeout_secs : Nat
  deriving DecidableEq, Repr

/-- `TerminalCommandResponse` (`terminal.rs:43-56`). -/
structure TerminalCommandResponse where
  request_id : String
  success : Bool
  output : String
  error : Option String
  exit_code : Option Int
  rejected : Bool
  deriving DecidableEq, Repr

/-- Modelled from the spec: the `ToolError` variants used by `terminal.rs`. -/
inductive ToolError where
  | invalidArguments (s : String)
  | executionFailed (s : String)
  | timeout
  deriving DecidableEq, Repr

/-- Modelled from the spec: `ToolResult` with its `success`/
`failure_with_output` constructors. -/
structure ToolResult where
  success : Bool
  output : String
  error : Option String
  deriving DecidableEq, Repr

/-- `ToolResult::success`. -/
def toolResultSuccess (output : String) : ToolResult :=
  { success := true, output := output, error := none }

/-- `ToolResult::failure_with_output`. -/
def toolResultFailureWithOutput (output error : String) : ToolResult :=
  { success := false, output := output, error := some error }

/-- `ExecutedCommand` (`terminal.rs:81-88`); the `Instant` is a second
count. -/
structure ExecutedCommand where
  command : String
  executed_at : Nat
  success : Bool
  deriving DecidableEq, Repr

/-- `DUPLICATE_DETECTION_WINDOW_SECS` (`terminal.rs:91`). -/
def DUPLICATE_DETECTION_WINDOW_SECS : Nat := 30

/-- `DEFAULT_TIMEOUT_SECS` (`terminal.rs:26`). -/
def DEFAULT_TIMEOUT_SECS : Nat := 120

/-- The bridge-visible state of `TerminalTool` plus the channel effects. -/
structure BridgeState where
  pending : List (String × Nat)
  closed : List Nat
  delivered : List (Nat × TerminalCommandResponse)
  deriving DecidableEq, Repr

/-- Observable outcome of one `handle_response` call: value sent, send
failed because the receiver was dropped (warn), or no pending entry
(warn). -/
inductive HandleOutcome where
  | delivered
  | sendFailed
  | noPending
  deriving DecidableEq, Repr

/-- `TerminalTool::handle_response` (`terminal.rs:139-154`): atomically
remove the slot for the response's request id and send the response into
it; absent slot means the response is dropped with a warning. -/
def handle_response (st : BridgeState) (response : TerminalCommandResponse) :
    BridgeState × HandleOutcome :=
  match st.pending.find? (fun p => p.1 = response.request_id) with
  | some pr =>
      let pending' := st.pending.eraseP (fun p => p.1 = response.request_id)
      if pr.2 ∈ st.closed then
        ({ st with pending := pending' }, HandleOutcome.sendFailed)
      else
        ({ st with pending := pending',
                   delivered := st.delivered ++ [(pr.2, response)] },
          HandleOutcome.delivered)
  | none => (st, HandleOutcome.noPending)

/-- The fixed duplicate-suppression message (`terminal.rs:171-175`). -/
def duplicateCommandMsg : String :=
  "This exact command was already executed successfully within the last 30 seconds. Do NOT re-execute it. If you need to verify the result, use the term_get_scrollback tool to read the terminal output."

/-- `TerminalTool::check_duplicate_command` (`terminal.rs:157-180`): evict
entries older than the window, then report a duplicate if a recent
*successful* record matches the command text. -/
def check_duplicate_command (history : List ExecutedCommand) (now : Nat)
    (command : String) : List ExecutedCommand × Option String :=
  let history' := history.filter
    (fun cmd => now - cmd.executed_at < DUPLICATE_DETECTION_WINDOW_SECS)
  (history',
   if history'.any (fun cmd => cmd.command = command && cmd.success) then
     some duplicateCommandMsg
   else none)

/-- `TerminalTool::record_executed_command` (`terminal.rs:183-195`): push a
record, evict the oldest past 100 entries. -/
def record_executed_command (history : List ExecutedCommand) (now : Nat)
    (command : String) (success : Bool) : List ExecutedCommand :=
  let h := history ++ [{ command := command, executed_at := now, success := success }]
  if h.length > 100 then h.drop 1 else h

/-- What one call observes about the `AppHandle`/`emit` pair. -/
inductive EmitEnv where
  | noHandle
  | emitErr (e : String)
  | emitOk
  deriving DecidableEq, Repr

/-- What the bounded wait of one call observes. -/
inductive AwaitEnv where
  | fulfilled (r : TerminalCommandResponse)
  | closed
  | timedOut
  deriving DecidableEq, Repr

/-- Result record of one `execute_command` call: final bridge state, the
notifications emitted towards the frontend, and the returned value. -/
structure ExecCmdOutcome where
  state : BridgeState
  notified : List TerminalCommandRequest
  result : Except ToolError TerminalCommandResponse
  deriving Repr

/-- `TerminalTool::execute_command` (`terminal.rs:198-303`): register the
fresh id, notify the frontend, await with the bounded timeout; every
non-delivered exit removes the registration itself, and the delivered exit
has it removed by `handle_response`. -/
def execute_command (st : BridgeState) (request_id : String) (ch : Nat)
    (command : String) (working_dir : Option String) (timeout_secs : Nat)
    (emitState : EmitEnv) (env : AwaitEnv) : ExecCmdOutcome :=
  let st1 : BridgeState := { st with pending := alInsert st.pending request_id ch }
  let request : TerminalCommandRequest :=
    { request_id := request_id, command := command,
      working_dir := working_dir, timeout_secs := timeout_secs }
  match emitState with
  | EmitEnv.noHandle =>
      { state := { st1 with pending := alErase st1.pending request_id },
        notified := [],
        result := Except.ok
          { request_id := request_id, success := false, output := "",
            error := some "终端工具未正确初始化。这是一个应用程序配置问题，请联系开发者。\n作为替代方案，我可以为您提供命令建议，但无法直接执行。",
            exit_code := some (-1), rejected := false } }
  | EmitEnv.emitErr e =>
      { state := { st1 with pending := alErase st1.pending request_id },
        notified := [request],
        result := Except.ok
          { request_id := request_id, success := false, output := "",
            error := some ("无法发送命令到终端：" ++ e ++ "。请检查应用配置。"),
            exit_code := some (-1), rejected := false } }
  | EmitEnv.emitOk =>
      match env with
      | AwaitEnv.fulfilled r =>
          { state := (handle_response st1 { r with request_id := request_id }).1,
            notified := [request],
            result := Except.ok { r with request_id := request_id } }
      | AwaitEnv.closed =>
          { state := { st1 with pending := alErase st1.pending request_id },
            notified := [request],
            result := Except.error (ToolError.executionFailed "响应通道已关闭") }
      | AwaitEnv.timedOut =>
          { state := { st1 with pending := alErase st1.pending request_id },
            notified := [request],
            result := Except.error ToolError.timeout }

/-- The `terminal` tool arguments as read from the JSON object
(`terminal.rs:357-368`). -/
structure TerminalArgs where
  command : Option String
  working_dir : Option String
  timeout : Option Nat
  deriving DecidableEq, Repr

/-- Result record of one `TerminalTool::execute` call. -/
structure ExecuteOutcome where
  bridge : BridgeState
  history : List ExecutedCommand
  notified : List TerminalCommandRequest
  result : Except ToolError ToolResult
  deriving Repr

/-- `TerminalTool::execute` (`terminal.rs:356-407`). -/
def TerminalTool.execute (st : BridgeState) (history : List ExecutedCommand)
    (now : Nat) (args : TerminalArgs) (self_timeout_secs : Nat)
    (request_id : String) (ch : Nat) (emitState : EmitEnv) (env : AwaitEnv) :
    ExecuteOutcome :=
  match args.command with
  | none =>
      { bridge := st, history := history, notified := [],
        result := Except.error (ToolError.invalidArguments "缺少 command 参数") }
  | some command =>
    let timeout_secs := args.timeout.getD self_timeout_secs
    let dc := check_duplicate_command history now command
    match dc.2 with
    | some duplicate_msg =>
        { bridge := st, history := dc.1, notified := [],
          result := Except.ok (toolResultSuccess
            ("[DUPLICATE COMMAND BLOCKED]\n" ++ duplicate_msg
              ++ "\n\nOriginal command: " ++ command)) }
    | none =>
        let ec := execute_command st request_id ch command args.working_dir
          timeout_secs emitState env
        match ec.result with
        | Except.error e =>
            { bridge := ec.state, history := dc.1, notified := ec.notified,
              result := Except.error e }
        | Except.ok response =>
            let history2 := record_executed_command dc.1 now command response.success
            if response.rejected then
              { bridge := ec.state, history := history2, notified := ec.notified,
                result := Except.ok
                  (toolResultFailureWithOutput "用户拒绝执行此命令" "命令被用户拒绝") }
            else if response.success then
              { bridge := ec.state, history := history2, notified := ec.notified,
                result := Except.ok (toolResultSuccess response.output) }
            else
              { bridge := ec.state, history := history2, notified := ec.notified,
                result := Except.ok (toolResultFailureWithOutput response.output
                  (response.error.getD
                    ("命令执行失败 (退出码: "
                      ++ toString (response.exit_code.getD (-1)) ++ ")"))) }

theorem find?_eq_none_of_not_contains {β : Type} {m : List (String × β)} {k : String}
    (h : alContains m k = false) : m.find? (fun p => p.1 = k) = none := by
  rw [List.find?_eq_none]
  intro p hp
  simp only [alContains, List.any_eq_false] at h
  exact h p hp

/-- Removing a freshly appended registration restores the table. -/
theorem alErase_insert_fresh {β : Type} (m : List (String × β)) (k : String) (v : β)
    (h : alContains m k = false) : alErase (alInsert m k v) k = m := by
  rw [alInsert_of_not_contains v h]
  unfold alErase
  rw [List.eraseP_append_right _ (fun b hb => by
    simp only [alContains, List.any_eq_false] at h
    exact h b hb)]
  rw [List.eraseP_cons_of_pos (by simp)]
  simp

/-- After erasing a key from a table with distinct keys, no entry for that
key remains. -/
theorem find?_eraseP_none {β : Type} (l : List (String × β)) (k : String)
    (hnd : (l.map (·.1)).Nodup) :
    (l.eraseP (fun p => p.1 = k)).find? (fun p => p.1 = k) = none := by
  induction l with
  | nil => rfl
  | cons q rest ih =>
      have h1 : q.1 ∉ rest.map (·.1) := (List.nodup_cons.mp hnd).1
      have h2 := (List.nodup_cons.mp hnd).2
      by_cases hq : q.1 = k
      · rw [List.eraseP_cons_of_pos (by simpa using hq)]
        rw [List.find?_eq_none]
        intro p hp
        simp only [decide_eq_true_eq]
        intro hpk
        exact h1 (List.mem_map.mpr ⟨p, hp, hpk.trans hq.symm⟩)
      · rw [List.eraseP_cons_of_neg (by simpa using hq)]
        rw [List.find?_cons_of_neg _ (by simpa using hq)]
        exact ih h2

/-- `handle_response` never grows the table: its pending map is always the
argument's pending map with the response's entry erased (a no-op when none
exists). -/
theorem handle_response_pending (st : BridgeState) (resp : TerminalCommandResponse) :
    (handle_response st resp).1.pending
      = st.pending.eraseP (fun p => p.1 = resp.request_id) := by
  unfold handle_response
  cases hf : st.pending.find? (fun p => p.1 = resp.request_id) with
  | none =>
      rw [List.eraseP_of_forall_not (fun p hp => by
        simpa using List.find?_eq_none.mp hf p hp)]
  | some pr =>
      by_cases hc : pr.2 ∈ st.closed <;> simp [hc]

/-- A response whose id has no pending entry is dropped: state unchanged,
outcome `noPending`. -/
theorem handle_response_no_entry (st : BridgeState) (resp : TerminalCommandResponse)
    (h : st.pending.find? (fun p => p.1 = resp.request_id) = none) :
    handle_response st resp = (st, HandleOutcome.noPending) := by
  unfold handle_response
  rw [h]

/-- C3: fulfilling a correlation id twice delivers only once — the first
call removes the slot (and, when the receiver is open, records the delivered
response); the second call finds no entry, changes nothing and reports
`noPending`; a first call reporting `noPending` changed nothing either.  The
embedding is a total function: no panic and no blocking exist on any path. -/
theorem handle_response_at_most_once (st : BridgeState)
    (resp : TerminalCommandResponse) (hnd : (st.pending.map (·.1)).Nodup) :
    handle_response (handle_response st resp).1 resp
        = ((handle_response st resp).1, HandleOutcome.noPending)
    ∧ ((handle_response st resp).2 = HandleOutcome.noPending →
        (handle_response st resp).1 = st)
    ∧ (∀ pr, st.pending.find? (fun p => p.1 = resp.request_id) = some pr →
        pr.2 ∉ st.closed →
        (handle_response st resp).1.delivered = st.delivered ++ [(pr.2, resp)]
          ∧ (handle_response st resp).2 = HandleOutcome.delivered) := by
  refine ⟨?_, ?_, ?_⟩
  · apply handle_response_no_entry
    rw [handle_response_pending]
    exact find?_eraseP_none st.pending resp.request_id hnd
  · intro hout
    cases hf : st.pending.find? (fun p => p.1 = resp.request_id) with
    | none => rw [handle_response_no_entry st resp hf]
    | some pr =>
        exfalso
        unfold handle_response at hout
        rw [hf] at hout
        by_cases hc : pr.2 ∈ st.closed <;> simp [hc] at hout
  · intro pr hf hc
    unfold handle_response
    rw [hf]
    simp [hc]

/-- Concrete bridge state for witnesses: one pending entry `"a"` on channel
`0`, receiver open. -/
def bridgeOneSlot : BridgeState :=
  { pending := [("a", 0)], closed := [], delivered := [] }

/-- Concrete response for witnesses. -/
def respA : TerminalCommandResponse :=
  { request_id := "a", success := true, output := "done",
    error := none, exit_code := some 0, rejected := false }

/-- Witness for C3: on a concrete state the first fulfillment delivers, the
second is a no-op reporting `noPending`. -/
theorem handle_response_at_most_once_witness :
    handle_response (handle_response bridgeOneSlot respA).1 respA
      = ((handle_response bridgeOneSlot respA).1, HandleOutcome.noPending)
    ∧ (handle_response bridgeOneSlot respA).1.delivered = [(0, respA)] :=
  ⟨(handle_response_at_most_once bridgeOneSlot respA (by decide)).1,
   by
    have h := ((handle_response_at_most_once bridgeOneSlot respA (by decide)).2.2
      ("a", 0) (by decide) (by decide)).1
    simpa using h⟩

/-- All paths of `execute_command` leave its pending table equal to the
incoming one with the request's registration erased — the non-delivered
paths erase it themselves, the delivered path has `handle_response` erase
it. -/
theorem execute_command_state_pending (st : BridgeState) (request_id : String)
    (ch : Nat) (command : String) (wd : Option String) (t : Nat)
    (emitState : EmitEnv) (env : AwaitEnv) :
    (execute_command st request_id ch command wd t emitState env).state.pending
      = alErase (alInsert st.pending request_id ch) request_id := by
  cases emitState with
  | noHandle => rfl
  | emitErr e => rfl
  | emitOk =>
      cases env with
      | fulfilled r =>
          show (handle_response _ _).1.pending = _
          rw [handle_response_pending]
          rfl
      | closed => rfl
      | timedOut => rfl

/-- `execute_command` notifies the frontend exactly once whenever an
`AppHandle` is present, and never otherwise. -/
theorem execute_command_notified (st : BridgeState) (request_id : String)
    (ch : Nat) (command : String) (wd : Option String) (t : Nat)
    (emitState : EmitEnv) (env : AwaitEnv) :
    (execute_command st request_id ch command wd t emitState env).notified
      = match emitState with
        | EmitEnv.noHandle => []
        | _ => [{ request_id := request_id, command := command,
                  working_dir := wd, timeout_secs := t }] := by
  cases emitState with
  | noHandle => rfl
  | emitErr e => rfl
  | emitOk => cases env <;> rfl

/-- C4: with a registered fresh id and a working notification, expiry of the
bounded wait returns `Timeout` with the registration removed (table restored),
premature channel closure returns the channel-closed failure with the
registration removed, and any fulfillment arriving after expiry finds no
slot and is dropped as a `noPending` no-op. -/
theorem execute_command_timeout_paths (st : BridgeState) (request_id : String)
    (ch : Nat) (command : String) (wd : Option String) (t : Nat)
    (hfresh : alContains st.pending request_id = false) :
    ((execute_command st request_id ch command wd t EmitEnv.emitOk
        AwaitEnv.timedOut).result = Except.error ToolError.timeout)
    ∧ ((execute_command st request_id ch command wd t EmitEnv.emitOk
        AwaitEnv.timedOut).state.pending = st.pending)
    ∧ (∀ resp : TerminalCommandResponse, resp.request_id = request_id →
        handle_response (execute_command st request_id ch command wd t
            EmitEnv.emitOk AwaitEnv.timedOut).state resp
          = ((execute_command st request_id ch command wd t EmitEnv.emitOk
              AwaitEnv.timedOut).state, HandleOutcome.noPending))
    ∧ ((execute_command st request_id ch command wd t EmitEnv.emitOk
        AwaitEnv.closed).result
          = Except.error (ToolError.executionFailed "响应通道已关闭"))
    ∧ ((execute_command st request_id ch command wd t EmitEnv.emitOk
        AwaitEnv.closed).state.pending = st.pending) := by
  have hp : (execute_command st request_id ch command wd t EmitEnv.emitOk
      AwaitEnv.timedOut).state.pending = st.pending := by
    rw [execute_command_state_pending]
    exact alErase_insert_fresh st.pending request_id ch hfresh
  refine ⟨rfl, hp, ?_, rfl, ?_⟩
  · intro resp hrid
    apply handle_response_no_entry
    rw [hp, hrid]
    exact find?_eq_none_of_not_contains hfresh
  · rw [execute_command_state_pending]
    exact alErase_insert_fresh st.pending request_id ch hfresh

/-- Empty bridge state. -/
def emptyBridge : BridgeState := { pending := [], closed := [], delivered := [] }

/-- Witness for C4 at a concrete request: timeout returns `Timeout`, the
table is empty again, and a late fulfillment is a `noPending` no-op. -/
theorem execute_command_timeout_paths_witness :
    ((execute_command emptyBridge "r1" 0 "ls" none 30 EmitEnv.emitOk
        AwaitEnv.timedOut).result = Except.error ToolError.timeout)
    ∧ ((execute_command emptyBridge "r1" 0 "ls" none 30 EmitEnv.emitOk
        AwaitEnv.timedOut).state.pending = [])
    ∧ handle_response (execute_command emptyBridge "r1" 0 "ls" none 30
          EmitEnv.emitOk AwaitEnv.timedOut).state
        { respA with request_id := "r1" }
      = ((execute_command emptyBridge "r1" 0 "ls" none 30 EmitEnv.emitOk
          AwaitEnv.timedOut).state, HandleOutcome.noPending) := by
  have h := execute_command_timeout_paths emptyBridge "r1" 0 "ls" none 30 (by decide)
  exact ⟨h.1, h.2.1, h.2.2.1 { respA with request_id := "r1" } rfl⟩

/-- C6: a call to `execute_command` with a fresh id (uuid v4 collisions are
assumed away, as the spec's "effectively collision-free" allows) registers
exactly one entry for that id, and on every return path — delivered
response, notification failure, missing app handle, channel closure, and
timeout — the returned state no longer contains an entry for the id. -/
theorem execute_command_no_leak (st : BridgeState) (request_id : String)
    (ch : Nat) (command : String) (wd : Option String) (t : Nat)
    (emitState : EmitEnv) (env : AwaitEnv)
    (hfresh : alContains st.pending request_id = false) :
    ((alInsert st.pending request_id ch).filter
        (fun p => p.1 = request_id)).length = 1
    ∧ alContains (execute_command st request_id ch command wd t emitState
        env).state.pending request_id = false := by
  constructor
  · rw [alInsert_of_not_contains ch hfresh, List.filter_append]
    have h0 : st.pending.filter (fun p => p.1 = request_id) = [] := by
      rw [List.filter_eq_nil_iff]
      intro p hp
      simp only [alContains, List.any_eq_false] at hfresh
      exact hfresh p hp
    rw [h0]
    simp
  · rw [execute_command_state_pending,
        alErase_insert_fresh st.pending request_id ch hfresh]
    exact hfresh

/-- Witness for C6 on the delivered path: registration is unique and the
table holds no entry for the id after the call. -/
theorem execute_command_no_leak_witness :
    ((alInsert emptyBridge.pending "r1" 0).filter (fun p => p.1 = "r1")).length = 1
    ∧ alContains (execute_command emptyBridge "r1" 0 "ls" none 30 EmitEnv.emitOk
        (AwaitEnv.fulfilled respA)).state.pending "r1" = false :=
  execute_command_no_leak emptyBridge "r1" 0 "ls" none 30 EmitEnv.emitOk
    (AwaitEnv.fulfilled respA) (by decide)

/-- The duplicate check fires exactly when some record matches the command
text, was successful, and lies inside the window. -/
theorem check_duplicate_some (history : List ExecutedCommand) (now : Nat)
    (command : String) :
    ((∃ r ∈ history, r.command = command ∧ r.success = true
        ∧ now - r.executed_at < DUPLICATE_DETECTION_WINDOW_SECS) →
      (check_duplicate_command history now command).2 = some duplicateCommandMsg)
    ∧ ((∀ r ∈ history, r.command = command → r.success = true →
          ¬ (now - r.executed_at < DUPLICATE_DETECTION_WINDOW_SECS)) →
      (check_duplicate_command history now command).2 = none) := by
  constructor
  · rintro ⟨r, hr, hcmd, hsucc, hwin⟩
    simp only [check_duplicate_command]
    rw [if_pos]
    rw [List.any_eq_true]
    refine ⟨r, List.mem_filter.mpr ⟨hr, by simpa using hwin⟩, ?_⟩
    simp [hcmd, hsucc]
  · intro hall
    simp only [check_duplicate_command]
    rw [if_neg]
    rw [List.any_eq_true]
    rintro ⟨r, hrf, hprop⟩
    have hr := List.mem_filter.mp hrf
    simp only [Bool.and_eq_true, decide_eq_true_eq] at hprop
    exact hall r hr.1 hprop.1 hprop.2 (by simpa using hr.2)

/-- Blocked-path equation for `TerminalTool::execute`. -/
theorem TerminalTool.execute_blocked_eq (st : BridgeState)
    (history : List ExecutedCommand) (now : Nat) (command : String)
    (wd : Option String) (targ : Option Nat) (self_t : Nat)
    (request_id : String) (ch : Nat) (emitState : EmitEnv) (env : AwaitEnv)
    (hsome : (check_duplicate_command history now command).2
      = some duplicateCommandMsg) :
    TerminalTool.execute st history now ⟨some command, wd, targ⟩ self_t
        request_id ch emitState env
      = { bridge := st,
          history := (check_duplicate_command history now command).1,
          notified := [],
          result := Except.ok (toolResultSuccess
            ("[DUPLICATE COMMAND BLOCKED]\n" ++ duplicateCommandMsg
              ++ "\n\nOriginal command: " ++ command)) } := by
  unfold TerminalTool.execute
  simp [hsome]

/-- Dispatch-path equation for `TerminalTool::execute`: without a duplicate,
the call defers to `execute_command` and its notifications. -/
theorem TerminalTool.execute_notified_eq (st : BridgeState)
    (history : List ExecutedCommand) (now : Nat) (command : String)
    (wd : Option String) (targ : Option Nat) (self_t : Nat)
    (request_id : String) (ch : Nat) (emitState : EmitEnv) (env : AwaitEnv)
    (hnone : (check_duplicate_command history now command).2 = none) :
    (TerminalTool.execute st history now ⟨some command, wd, targ⟩ self_t
        request_id ch emitState env).notified
      = (execute_command st request_id ch command wd (targ.getD self_t)
          emitState env).notified := by
  unfold TerminalTool.execute
  simp only [hnone]
  cases hres : (execute_command st request_id ch command wd (targ.getD self_t)
      emitState env).result with
  | error e => simp [hres]
  | ok response =>
      simp only [hres]
      split <;> [skip; split] <;> rfl

/-- C5: a command equal to a successfully executed record inside the
30-second window is short-circuited — no notification is emitted and the
bridge state (in particular the pending table) is untouched, with the
explanatory result returned; once no matching successful record is inside
the window any more, the identical command is dispatched normally: the
frontend is notified with exactly one request whenever an `AppHandle` is
set. -/
theorem execute_duplicate_suppression (st : BridgeState)
    (history : List ExecutedCommand) (now : Nat) (command : String)
    (wd : Option String) (targ : Option Nat) (self_t : Nat)
    (request_id : String) (ch : Nat) (emitState : EmitEnv) (env : AwaitEnv) :
    ((∃ r ∈ history, r.command = command ∧ r.success = true
        ∧ now - r.executed_at < DUPLICATE_DETECTION_WINDOW_SECS) →
      (TerminalTool.execute st history now ⟨some command, wd, targ⟩ self_t
          request_id ch emitState env).notified = []
      ∧ (TerminalTool.execute st history now ⟨some command, wd, targ⟩ self_t
          request_id ch emitState env).bridge = st
      ∧ (TerminalTool.execute st history now ⟨some command, wd, targ⟩ self_t
          request_id ch emitState env).result
        = Except.ok (toolResultSuccess
            ("[DUPLICATE COMMAND BLOCKED]\n" ++ duplicateCommandMsg
              ++ "\n\nOriginal command: " ++ command)))
    ∧ ((∀ r ∈ history, r.command = command → r.success = true →
          ¬ (now - r.executed_at < DUPLICATE_DETECTION_WINDOW_SECS)) →
      emitState ≠ EmitEnv.noHandle →
      (TerminalTool.execute st history now ⟨some command, wd, targ⟩ self_t
          request_id ch emitState env).notified
        = [{ request_id := request_id, command := command,
             working_dir := wd, timeout_secs := targ.getD self_t }]) := by
  constructor
  · intro hdup
    have hsome := (check_duplicate_some history now command).1 hdup
    rw [TerminalTool.execute_blocked_eq st history now command wd targ self_t
      request_id ch emitState env hsome]
    exact ⟨rfl, rfl, rfl⟩
  · intro hnall hnh
    have hnone := (check_duplicate_some history now command).2 hnall
    rw [TerminalTool.execute_notified_eq st history now command wd targ self_t
      request_id ch emitState env hnone]
    rw [execute_command_notified]
    cases emitState with
    | noHandle => exact absurd rfl hnh
    | emitErr e => rfl
    | emitOk => rfl

/-- History with one fresh successful record for witnesses. -/
def historyFreshLs : List ExecutedCommand :=
  [{ command := "ls", executed_at := 10, success := true }]

/-- Witness for C5: inside the window the identical command is blocked with
no notification and an unchanged bridge; at a later instant the same
command is dispatched and notifies the frontend. -/
theorem execute_duplicate_suppression_witness :
    ((TerminalTool.execute emptyBridge historyFreshLs 20 ⟨some "ls", none, none⟩
        120 "r1" 0 EmitEnv.emitOk AwaitEnv.timedOut).notified = []
      ∧ (TerminalTool.execute emptyBridge historyFreshLs 20 ⟨some "ls", none, none⟩
          120 "r1" 0 EmitEnv.emitOk AwaitEnv.timedOut).bridge = emptyBridge
      ∧ (TerminalTool.execute emptyBridge historyFreshLs 20 ⟨some "ls", none, none⟩
          120 "r1" 0 EmitEnv.emitOk AwaitEnv.timedOut).result
        = Except.ok (toolResultSuccess
            ("[DUPLICATE COMMAND BLOCKED]\n" ++ duplicateCommandMsg
              ++ "\n\nOriginal command: " ++ "ls")))
    ∧ (TerminalTool.execute emptyBridge historyFreshLs 50 ⟨some "ls", none, none⟩
        120 "r1" 0 EmitEnv.emitOk AwaitEnv.timedOut).notified
      = [{ request_id := "r1", command := "ls", working_dir := none,
           timeout_secs := 120 }] :=
  ⟨(execute_duplicate_suppression emptyBridge historyFreshLs 20 "ls" none none
      120 "r1" 0 EmitEnv.emitOk AwaitEnv.timedOut).1 (by decide),
   (execute_duplicate_suppression emptyBridge historyFreshLs 50 "ls" none none
      120 "r1" 0 EmitEnv.emitOk AwaitEnv.timedOut).2 (by decide) (by decide)⟩

/-- C10 (amended): a blocked duplicate returns a *successful* `ToolResult`
tagged `[DUPLICATE COMMAND BLOCKED]`, and appends no record — the history
after the call is the incoming history with only the age eviction of the
duplicate check applied (a subsequence of the original), so the blocked call
never extends its own suppression window.  The original claim's "history
left unchanged" fails exactly when an expired record gets evicted (see the
counterexample). -/
theorem execute_blocked_frame (st : BridgeState)
    (history : List ExecutedCommand) (now : Nat) (command : String)
    (wd : Option String) (targ : Option Nat) (self_t : Nat)
    (request_id : String) (ch : Nat) (emitState : EmitEnv) (env : AwaitEnv)
    (hdup : ∃ r ∈ history, r.command = command ∧ r.success = true
        ∧ now - r.executed_at < DUPLICATE_DETECTION_WINDOW_SECS) :
    (TerminalTool.execute st history now ⟨some command, wd, targ⟩ self_t
        request_id ch emitState env).result
      = Except.ok (toolResultSuccess
          ("[DUPLICATE COMMAND BLOCKED]\n" ++ duplicateCommandMsg
            ++ "\n\nOriginal command: " ++ command))
    ∧ (TerminalTool.execute st history now ⟨some command, wd, targ⟩ self_t
        request_id ch emitState env).history
      = history.filter
          (fun r => now - r.executed_at < DUPLICATE_DETECTION_WINDOW_SECS)
    ∧ (TerminalTool.execute st history now ⟨some command, wd, targ⟩ self_t
        request_id ch emitState env).history.Sublist history := by
  have hsome := (check_duplicate_some history now command).1 hdup
  rw [TerminalTool.execute_blocked_eq st history now command wd targ self_t
    request_id ch emitState env hsome]
  exact ⟨rfl, rfl, List.filter_sublist history⟩

/-- Witness for the amended C10 at a concrete blocked call. -/
theorem execute_blocked_frame_witness :
    (TerminalTool.execute emptyBridge historyFreshLs 20 ⟨some "ls", none, none⟩
        120 "r1" 0 EmitEnv.emitOk AwaitEnv.timedOut).history
      = historyFreshLs.filter
          (fun r => 20 - r.executed_at < DUPLICATE_DETECTION_WINDOW_SECS)
    ∧ (TerminalTool.execute emptyBridge historyFreshLs 20 ⟨some "ls", none, none⟩
        120 "r1" 0 EmitEnv.emitOk AwaitEnv.timedOut).history.Sublist historyFreshLs :=
  ⟨(execute_blocked_frame emptyBridge historyFreshLs 20 "ls" none none 120 "r1" 0
      EmitEnv.emitOk AwaitEnv.timedOut (by decide)).2.1,
   (execute_blocked_frame emptyBridge historyFreshLs 20 "ls" none none 120 "r1" 0
      EmitEnv.emitOk AwaitEnv.timedOut (by decide)).2.2⟩

/-- History holding an expired record next to a fresh duplicate. -/
def historyWithExpired : List ExecutedCommand :=
  [{ command := "old", executed_at := 0, success := true },
   { command := "x", executed_at := 40, success := true }]

/-- C10 counterexample: the blocked call is not history-neutral — the
expired `"old"` record is evicted by the duplicate check, so the
executed-command history after the blocked call differs from the history
before it (yet the call is blocked with a successful tagged result). -/
theorem execute_blocked_history_counterexample :
    (TerminalTool.execute emptyBridge historyWithExpired 50 ⟨some "x", none, none⟩
        120 "r1" 0 EmitEnv.emitOk AwaitEnv.timedOut).history ≠ historyWithExpired
    ∧ (TerminalTool.execute emptyBridge historyWithExpired 50 ⟨some "x", none, none⟩
        120 "r1" 0 EmitEnv.emitOk AwaitEnv.timedOut).history
      = [{ command := "x", executed_at := 40, success := true }]
    ∧ (TerminalTool.execute emptyBridge historyWithExpired 50 ⟨some "x", none, none⟩
        120 "r1" 0 EmitEnv.emitOk AwaitEnv.timedOut).result
      = Except.ok (toolResultSuccess
          ("[DUPLICATE COMMAND BLOCKED]\n" ++ duplicateCommandMsg
            ++ "\n\nOriginal command: " ++ "x")) := by
  refine ⟨by decide, by decide, rfl⟩

end Proxycast
